import Mathlib

/-!
Verification development for the Solana transaction/account stream correlator
(src/main.rs, src/instruction_account_mapper.rs).

Rust strings are shallowly embedded as lists of characters (`Str`), Rust `u64`
as `Nat` with explicit `2 ^ 64` bounds where overflow matters, maps (`DashMap`)
as functions `Str → Option _`, and fallible operations as `Option`/`Except`.
Floating-point display/approximation and the SHA-256 based program-derived
address computation are not arithmetically representable; they enter the model
only as explicitly universally quantified function parameters, so every theorem
below holds for all of their possible behaviours.
-/

namespace CpiMonitor

/-- Rust `String`/`&str` embedded as a list of characters. -/
abbrev Str := List Char

/-- Convenience literal conversion. -/
def str (s : String) : Str := s.toList

/-- Rust `str::starts_with` on the character-list embedding. -/
def startsWithL : Str → Str → Bool
  | [], _ => true
  | _ :: _, [] => false
  | a :: as, b :: bs => a == b && startsWithL as bs

/-- Rust `str::contains(pat)` (substring containment). -/
def hasSub (p : Str) : Str → Bool
  | [] => startsWithL p []
  | c :: rest => startsWithL p (c :: rest) || hasSub p rest

/-- Rust `str::find(pat)`: byte index of the first occurrence of `pat`
(character index in this embedding). -/
def findSubIdx (p : Str) : Str → Option Nat
  | [] => if startsWithL p [] then some 0 else none
  | c :: rest =>
    if startsWithL p (c :: rest) then some 0
    else (findSubIdx p rest).map (· + 1)

/-- Rust `str::rfind(ch)`: index of the last occurrence of a character. -/
def rfindIdx (ch : Char) : Str → Option Nat
  | [] => none
  | c :: rest =>
    match rfindIdx ch rest with
    | some i => some (i + 1)
    | none => if c = ch then some 0 else none

/-- Rust `str::split(sep)` semantics on character lists (keeps empty pieces,
always returns at least one piece). -/
def splitOnL (sep : Char) : Str → List Str
  | [] => [[]]
  | c :: rest =>
    if c = sep then [] :: splitOnL sep rest
    else
      match splitOnL sep rest with
      | [] => [[c]]
      | h :: t => (c :: h) :: t

/-- Rust `str::trim_start` (whitespace from the left). -/
def trimLeftL (l : Str) : Str := l.dropWhile Char.isWhitespace

/-- Rust trim of trailing whitespace. -/
def trimRightL (l : Str) : Str := (l.reverse.dropWhile Char.isWhitespace).reverse

/-- Rust `str::trim`. -/
def trimL (l : Str) : Str := trimRightL (trimLeftL l)

/-- The trailing carriage-return strip that Rust `str::lines` applies to each
line. -/
def stripCR (l : Str) : Str := if l.getLast? = some '\x0d' then l.dropLast else l

/-- Rust `str::lines`: split on newline, drop a final empty fragment (i.e. a
trailing newline produces no extra empty line), strip a trailing CR from each
line. -/
def rustLines (l : Str) : List Str :=
  if l = [] then []
  else
    (if (splitOnL '\n' l).getLast? = some [] then (splitOnL '\n' l).dropLast
     else splitOnL '\n' l).map stripCR

/-- Decimal digit character for a digit value. -/
def digitChar (d : Nat) : Char :=
  [ '0', '1', '2', '3', '4', '5', '6', '7', '8', '9' ].getD d '0'

/-- Fuel-driven decimal rendering helper (most significant digit first). -/
def natDigitsAux : Nat → Nat → Str
  | 0, _ => []
  | fuel + 1, n =>
    if n = 0 then [] else natDigitsAux fuel (n / 10) ++ [digitChar (n % 10)]

/-- Rust `u64` `Display` rendering (decimal, no sign, no padding). -/
def natDigits (n : Nat) : Str := if n = 0 then ['0'] else natDigitsAux n n

/-- Rust `bool` `Display` rendering. -/
def boolStr (b : Bool) : Str := if b then str "true" else str "false"

/-- Value of a digit string read left to right. -/
def digitsVal (l : Str) : Nat := l.foldl (fun a c => a * 10 + (c.toNat - 48)) 0

/-- Rust `str::parse::<u64>()`: optional leading plus sign, at least one
decimal digit, nothing else, and the value must fit in 64 bits. -/
def parseU64 (l : Str) : Option Nat :=
  let body := if l.head? = some '+' then l.tail else l
  if body ≠ [] ∧ body.all Char.isDigit ∧ digitsVal body < 2 ^ 64 then
    some (digitsVal body)
  else none

/-! ## Binary account decoder (src/main.rs lines 1652-1687)

Account payloads are byte buffers; bytes are `Fin 256`.  The two
discriminator constants and the borsh field deserializers live in the external
`pump_interface` crate, so they are modelled from the spec (§4.1: an 8-byte
discriminator, then fixed-width little-endian integers, fixed-width byte-array
addresses, single-byte booleans that must be 0 or 1, read from a reader that
tolerates trailing bytes). -/

/-- A byte of account data. -/
abbrev Byte := Fin 256

/-- Modelled from the spec: the 8-byte discriminator of the bonding-curve
account type in the external interface crate (`BONDING_CURVE_ACCOUNT_DISCM`). -/
def BONDING_CURVE_ACCOUNT_DISCM : List Byte := [23, 183, 248, 55, 96, 216, 172, 96]

/-- Modelled from the spec: the 8-byte discriminator of the global
configuration account type in the external interface crate
(`GLOBAL_ACCOUNT_DISCM`). -/
def GLOBAL_ACCOUNT_DISCM : List Byte := [167, 232, 232, 177, 200, 108, 114, 127]

/-- The bonding-curve account state (field set as used at src/main.rs
lines 1493-1509). -/
structure BondingCurve where
  virtual_token_reserves : Nat
  virtual_sol_reserves : Nat
  real_token_reserves : Nat
  real_sol_reserves : Nat
  token_total_supply : Nat
  complete : Bool
deriving DecidableEq, Repr

/-- The global configuration account state (field set as used at src/main.rs
lines 1555-1580). -/
structure Global where
  initialized : Bool
  authority : List Byte
  fee_recipient : List Byte
  initial_virtual_token_reserves : Nat
  initial_virtual_sol_reserves : Nat
  initial_real_token_reserves : Nat
  token_total_supply : Nat
  fee_basis_points : Nat
deriving DecidableEq, Repr

/-- `DecodedAccount` from src/main.rs lines 527-531. -/
inductive DecodedAccount where
  | bondingCurve : BondingCurve → DecodedAccount
  | global : Global → DecodedAccount
deriving DecidableEq, Repr

/-- `AccountDecodeError` from src/main.rs lines 533-536. -/
structure AccountDecodeError where
  message : Str
deriving DecidableEq, Repr

/-- Little-endian value of a byte list (least significant byte first). -/
def u64val (bs : List Byte) : Nat := bs.foldr (fun b acc => b.val + 256 * acc) 0

/-- Read one little-endian `u64` from a byte stream. -/
def readU64LE (l : List Byte) : Option (Nat × List Byte) :=
  if 8 ≤ l.length then some (u64val (l.take 8), l.drop 8) else none

/-- Read one borsh boolean (a single byte that must be 0 or 1). -/
def readBool (l : List Byte) : Option (Bool × List Byte) :=
  match l with
  | b :: rest =>
    if b = 0 then some (false, rest)
    else if b = 1 then some (true, rest)
    else none
  | [] => none

/-- Read a 32-byte address. -/
def readPubkeyBytes (l : List Byte) : Option (List Byte × List Byte) :=
  if 32 ≤ l.length then some (l.take 32, l.drop 32) else none

/-- Modelled from the spec: the borsh deserializer for the bonding-curve
account body (external crate `BondingCurveAccount::deserialize` after the
discriminator), reading five little-endian `u64` fields then one boolean,
tolerating trailing bytes. -/
def deserializeBondingCurveBody (l : List Byte) : Option BondingCurve := do
  let (vt, l) ← readU64LE l
  let (vs, l) ← readU64LE l
  let (rt, l) ← readU64LE l
  let (rs, l) ← readU64LE l
  let (ts, l) ← readU64LE l
  let (c, _) ← readBool l
  pure ⟨vt, vs, rt, rs, ts, c⟩

/-- Modelled from the spec: the borsh deserializer for the global account body
(external crate `GlobalAccount::deserialize` after the discriminator): one
boolean, two 32-byte addresses, five little-endian `u64` fields, tolerating
trailing bytes. -/
def deserializeGlobalBody (l : List Byte) : Option Global := do
  let (ini, l) ← readBool l
  let (auth, l) ← readPubkeyBytes l
  let (fee, l) ← readPubkeyBytes l
  let (ivt, l) ← readU64LE l
  let (ivs, l) ← readU64LE l
  let (irt, l) ← readU64LE l
  let (ts, l) ← readU64LE l
  let (fbp, _) ← readU64LE l
  pure ⟨ini, auth, fee, ivt, ivs, irt, ts, fbp⟩

/-- `decode_account_data` from src/main.rs lines 1652-1687: buffers shorter
than 8 bytes fail with the too-short message; otherwise the 8-byte prefix is
matched exactly against the two known discriminators and dispatched to the
matching deserializer, whose failure message names the account type; an
unknown discriminator yields the no-matching-discriminator message.  The
function is total, so no input panics. -/
def decode_account_data (buf : List Byte) : Except AccountDecodeError DecodedAccount :=
  if buf.length < 8 then
    .error ⟨str "缓冲区太短，无法包含有效的鉴别器"⟩
  else
    let discriminator := buf.take 8
    if discriminator = BONDING_CURVE_ACCOUNT_DISCM then
      match deserializeBondingCurveBody (buf.drop 8) with
      | some bc => .ok (.bondingCurve bc)
      | none => .error ⟨str "无法反序列化BondingCurveAccount: " ++ str "io error"⟩
    else if discriminator = GLOBAL_ACCOUNT_DISCM then
      match deserializeGlobalBody (buf.drop 8) with
      | some g => .ok (.global g)
      | none => .error ⟨str "无法反序列化GlobalAccount: " ++ str "io error"⟩
    else
      .error ⟨str "未找到账户的鉴别器"⟩

/-- The fixed field layout of a bonding-curve account body: five 8-byte
integers then one boolean byte that must be 0 or 1 (trailing bytes allowed). -/
def bondingCurveLayoutOk (rest : List Byte) : Prop :=
  41 ≤ rest.length ∧ (rest.getD 40 0 = 0 ∨ rest.getD 40 0 = 1)

/-- The fixed field layout of a global account body: one boolean byte (0 or
1), two 32-byte addresses, five 8-byte integers (trailing bytes allowed). -/
def globalLayoutOk (rest : List Byte) : Prop :=
  105 ≤ rest.length ∧ (rest.getD 0 0 = 0 ∨ rest.getD 0 0 = 1)

instance (rest : List Byte) : Decidable (bondingCurveLayoutOk rest) := by
  unfold bondingCurveLayoutOk
  infer_instance

instance (rest : List Byte) : Decidable (globalLayoutOk rest) := by
  unfold globalLayoutOk
  infer_instance

/-! ## Price computation (src/main.rs lines 550-558)

`calculate_price` divides the two reserve counters and applies the single
10^-3 decimal-precision correction.  The `f64` arithmetic of the source is
embedded as exact rational arithmetic. -/

/-- `calculate_price`: 0 when the token reserve is 0, otherwise
`vs / vt * 0.001`. -/
def calculate_price (vt vs : Nat) : ℚ :=
  if vt = 0 then 0 else (vs : ℚ) / (vt : ℚ) * (1 / 1000)

/-! ## Creator-fee computation (src/main.rs lines 2144-2160)

`calculate_creator_fee` returns 0 when either argument is 0, the exact
integer `amount * fee_basis_points / 10000` when the product fits `u64`
(`checked_mul` succeeds), and otherwise the result of a floating-point
approximation.  The `f64` fallback is not arithmetically representable and is
taken as an explicit function parameter, universally quantified in every
theorem about this definition. -/

/-- `calculate_creator_fee`, parameterised by the floating-point fallback
computation `floatApprox` of the overflow branch. -/
def calculate_creator_fee (floatApprox : Nat → Nat → Nat) (amount fee_basis_points : Nat) : Nat :=
  if amount = 0 ∨ fee_basis_points = 0 then 0
  else if amount * fee_basis_points < 2 ^ 64 then
    amount * fee_basis_points / 10000
  else
    floatApprox amount fee_basis_points

/-! ## Opaque host operations

A handful of helpers called by the cache and enrichment code cannot be
embedded arithmetically: `calculate_curve_account_from_mint` and
`extract_mint_address_from_account_data` run the SHA-256 based
program-derived-address computation, `extract_creator_vault_from_log`
re-parses embedded JSON via serde, and several spots format `f64` values.
They are gathered into one parameter record; every theorem quantifies over
it, so the results hold for all possible behaviours of these helpers. -/

/-- Parameter record for the non-embeddable helpers of src/main.rs. -/
structure OpaqueOps where
  /-- `calculate_curve_account_from_mint` (lines 1763-1779, PDA hashing). -/
  curveOf : Str → Option Str
  /-- `extract_mint_address_from_account_data` (lines 1691-1731, PDA probe). -/
  mintFromAccount : Str → Option Str
  /-- `extract_creator_vault_from_log` (lines 2180-2249, embedded-JSON scan). -/
  extractVaultLog : Str → Option Str
  /-- `f64` display of `calculate_price vt vs` used in cached text. -/
  priceStr : Nat → Nat → Str
  /-- `f64` display of `lamports / 1_000_000_000` used in log messages. -/
  solStr : Nat → Str
  /-- formatted wall-clock time used as the file-log line prefix. -/
  nowStr : Str
  /-- `f64` fallback branch of `calculate_creator_fee`. -/
  floatFee : Nat → Nat → Nat

/-! ## Instruction-account entries and vault resolution
(src/main.rs lines 1871-2141) -/

/-- One entry of the serialized `accounts` array of a decoded instruction
(name, pubkey and flags, as produced by `InstructionAccountMapper`). -/
structure AccJ where
  name : Str
  pubkey : Str
  is_signer : Bool
  is_writable : Bool
deriving DecidableEq, Repr

/-- Rust `str::to_lowercase` (ASCII-faithful). -/
def lowerL (s : Str) : Str := s.map Char.toLower

/-- The associated-token-program role names accepted at lines 1917-1925. -/
def atpNameB (n : Str) : Bool :=
  let nl := lowerL n
  nl = str "associatedtokenprogram" || nl = str "associated_token_program" ||
    nl = str "associated-token-program"

/-- The creator-vault role names accepted at lines 1939-1947. -/
def cvNameB (n : Str) : Bool :=
  let nl := lowerL n
  nl = str "creator_vault" || nl = str "creatorvault" || nl = str "creator-vault"

/-- The fee-recipient role names accepted at lines 1970-1975 and 2008-2013. -/
def feeNameB (n : Str) : Bool :=
  let nl := lowerL n
  nl = str "feerecipient" || nl = str "fee_recipient"

/-- The rent sysvar address constant compared at line 1960. -/
def SYSVAR_RENT_ADDR : Str := str "SysvarRent111111111111111111111111111111111"

/-- The system-program address compared at line 1961. -/
def SYSTEM_PROGRAM_ADDR : Str := str "11111111111111111111111111111111"

/-- Vault resolution of `extract_raw_cpi_log_data` (lines 1904-1995): for a
sell instruction the associated-token-program account is consulted first;
otherwise a creator-vault-named account; otherwise a `"rent"`-named account
whose pubkey is neither the rent sysvar, empty, nor the system program.  The
fee-recipient stage (lines 1969-1989) only records the separate
`fee_recipient` field and logs a warning; it never assigns the vault. -/
def resolveCreatorVault (is_sell : Bool) (accounts : List AccJ) : Option Str :=
  let fromAtp : Option Str :=
    if is_sell then (accounts.find? (fun a => atpNameB a.name)).map (·.pubkey)
    else none
  match fromAtp with
  | some p => some p
  | none =>
    match (accounts.find? (fun a => cvNameB a.name)).map (·.pubkey) with
    | some p => some p
    | none =>
      match accounts.find? (fun a => a.name = str "rent") with
      | some r =>
        if r.pubkey ≠ SYSVAR_RENT_ADDR ∧ r.pubkey ≠ [] ∧ r.pubkey ≠ SYSTEM_PROGRAM_ADDR then
          some r.pubkey
        else none
      | none => none

/-- The `fee_recipient` field recorded by `extract_raw_cpi_log_data`: when no
vault was resolved, stage 3 (lines 1969-1989) stores the fee-recipient
account's pubkey unconditionally; otherwise the later block (lines 2007-2020)
stores it only when non-empty. -/
def feeRecipientField (is_sell : Bool) (accounts : List AccJ) : Option Str :=
  match resolveCreatorVault is_sell accounts with
  | none => (accounts.find? (fun a => feeNameB a.name)).map (·.pubkey)
  | some _ =>
    match accounts.find? (fun a => feeNameB a.name) with
    | some a => if a.pubkey ≠ [] then some a.pubkey else none
    | none => none

/-- `find_creator_by_mint` (lines 1782-1806): the hard-coded mint-to-creator
association table. -/
def find_creator_by_mint (mint : Str) : Option Str :=
  (([
    ("DCLjJRAP4PineCmCabTKRrTVsSaggkmfgBj8AMPapump", "T5SWiQQCACjAMSjTnHEbRjFzxqQyd5xoLvHqFPRqRLw"),
    ("4qMyinhBRrePr82BjoKheaXocfTXChBMk3TWifHypump", "2yodq5YqMk5owNYhUWjh9gNkwRxaQBYDAcJdaGC7B7vG"),
    ("7kJzws2KnTV73d16ZuifeFmSyupxYkp7CPYenV3Apump", "J9MBJJrqxsqBSXMk46PT5XJj9qXBzj6kcGbECdmDSQoV"),
    ("FqF6Ac1j71qjTxjg9mJag3zrmmnxVtXJQTxZjSPdpump", "F5RYi7FMPefkc7okJNh21HgKmFVtJYyGBm1xxvriDVYZ"),
    ("amUfFDR5KxiFKpgibmPAPRwhaB9jrPcKWsBVJMhpump", "Hju3K6uRadH7AkynqHGCZgD1W63WNa47h6DuNpTk3xsG"),
    ("A5JqPPSTf3Rc4W9R9CYLRhRowMLZLquweJgR6iDepump", "Eou3bQd3VYUzXxcLBqihFP5J5qK3W3f8Lq5CsX3EY8Yk"),
    ("GFVtnX25mEtpjEXc47X1AKfcd9tdPdds9FdMQoJ1pump", "HNjUCzKFHAqZVvf3mFe89X35aQdNwqKptkwViNNgUzKf"),
    ("7v1cnL3KtzbHYar9anc8eQGV9NYDMPgYwb526ShUpump", "BYNj1SpM6PxMUVu5hLYVdJxiP5Qv8fQ5eeqZQ213APGj"),
    ("F7ZDfpnBX13Uy5gK8J4mQLvMpDqa1zhajdUtfvwgpump", "BM2SfEe3rjG48RtNqLHk1KVJqb2EXfz6CuD6epn3U5Ku"),
    ("85578kyWUYj7kU4GeSKZ8RYoQuhxdxiVc5CXL52spump", "ChcyLqAMCm25LGFhgP9RXAd54oCbKZ1DdDmwkh4dpQsM"),
    ("54Pgg7FuLuP13dRQoFPTH4FdZHi141bQDzVwukt6m8Tk", "ChcyLqAMCm25LGFhgP9RXAd54oCbKZ1DdDmwkh4dpQsM"),
    ("7hTckgnGnLQR6sdH7YkqFTAA7VwTfYFaZ6EhEsU3saCX", "HNjUCzKFHAqZVvf3mFe89X35aQdNwqKptkwViNNgUzKf"),
    ("HxmpdosPST3HoZwMg8uV8hg9EoYpisyCQQAP8HAqnMQK", "BM2SfEe3rjG48RtNqLHk1KVJqb2EXfz6CuD6epn3U5Ku")
  ] : List (String × String)).find? (fun p => p.1.toList = mint)).map (fun p => p.2.toList)

/-- `find_creator_by_vault` (lines 2252-2259): reuses the mint table. -/
def find_creator_by_vault (vault : Str) : Option Str := find_creator_by_mint vault

/-- The decoded buy/sell instruction payload (`PumpProgramIx`, restricted to
the two opcodes of interest with their fixed-width numeric arguments). -/
inductive PumpIx where
  | buy (amount max_sol_cost : Nat)
  | sell (amount min_sol_output : Nat)
deriving DecidableEq, Repr

/-- Whether the instruction is a sell (lines 1904-1907). -/
def PumpIx.isSell : PumpIx → Bool
  | .sell _ _ => true
  | .buy _ _ => false

/-- The enrichment output record assembled by `extract_raw_cpi_log_data`
(lines 1871-2141), restricted to its scalar fields; the `raw_accounts`
mirror of the input array is kept as `accounts`. -/
structure RawCpiLog where
  signature : Str
  mint : Str
  signer : Str
  time : Str
  virtual_token_reserves : Option Nat
  virtual_sol_reserves : Option Nat
  curve_account : Option Str
  creator_vault : Option Str
  creator : Option Str
  fee_recipient : Option Str
  global_account : Option Str
  txType : Str
  token_amount : Nat
  sol_amount : Nat
  creator_fee_basis_points : Nat
  creator_fee : Nat
  accounts : List AccJ
  timestamp : Nat
deriving DecidableEq, Repr

/-- `extract_raw_cpi_log_data` (lines 1871-2141): assembles the structured
enrichment record for one decoded buy/sell instruction.  `nowSecs` is the
wall-clock second count of lines 2135-2138; the `f64` fallback of the fee
computation comes from `ops`. -/
def extract_raw_cpi_log_data (ops : OpaqueOps) (ix : PumpIx) (signature : Str)
    (accounts : List AccJ) (mint_address signer_address formatted_time : Str)
    (curve_account : Option Str) (vt_reserves vs_reserves : Option Nat)
    (nowSecs : Nat) : RawCpiLog :=
  let vault := resolveCreatorVault ix.isSell accounts
  let creatorFromVault :=
    match vault with
    | some v => find_creator_by_vault v
    | none => none
  let creator :=
    match creatorFromVault with
    | some c => some c
    | none => find_creator_by_mint mint_address
  let amounts :=
    match ix with
    | .buy amount max_sol_cost => (str "Buy", amount, max_sol_cost)
    | .sell amount min_sol_output => (str "Sell", amount, min_sol_output)
  { signature := signature
    mint := mint_address
    signer := signer_address
    time := formatted_time
    virtual_token_reserves := vt_reserves
    virtual_sol_reserves := vs_reserves
    curve_account := curve_account
    creator_vault := vault
    creator := creator
    fee_recipient := feeRecipientField ix.isSell accounts
    global_account := (accounts.find? (fun a => a.name = str "global")).map (·.pubkey)
    txType := amounts.1
    token_amount := amounts.2.1
    sol_amount := amounts.2.2
    creator_fee_basis_points := 100
    creator_fee := calculate_creator_fee ops.floatFee amounts.2.2 100
    accounts := accounts
    timestamp := nowSecs }

/-! ## Correlation cache (src/main.rs lines 47-373)

The in-process tier of `TransactionCache`: the three timestamped `DashMap`
key spaces and the two latest-by-mint indexes, embedded as functions.  The
fire-and-forget Redis mirror writes touch no in-process state and are outside
this model (spec §4.4 treats the durable tier as advisory). -/

/-- `CacheItem` (lines 48-52): payload text plus capture instant. -/
structure CacheItem where
  data : Str
  timestamp : Nat
deriving DecidableEq, Repr

/-- The in-process tier of `TransactionCache` (lines 55-66). -/
structure TransactionCache where
  buy_transactions : Str → Option CacheItem
  sell_transactions : Str → Option CacheItem
  account_data : Str → Option CacheItem
  latest_account_data : Str → Option Str
  latest_reserves : Str → Option (Nat × Nat)

/-- `DashMap::insert`: last-write-wins keyed update. -/
def upd {β : Type} (m : Str → Option β) (k : Str) (v : β) : Str → Option β :=
  fun q => if q = k then some v else m q

/-- The cache with no entries (`TransactionCache::new`). -/
def emptyCache : TransactionCache where
  buy_transactions := fun _ => none
  sell_transactions := fun _ => none
  account_data := fun _ => none
  latest_account_data := fun _ => none
  latest_reserves := fun _ => none

/-- `get_buy_transaction` (lines 303-305). -/
def get_buy_transaction (st : TransactionCache) (signature : Str) : Option Str :=
  (st.buy_transactions signature).map (·.data)

/-- `get_sell_transaction` (lines 308-310). -/
def get_sell_transaction (st : TransactionCache) (signature : Str) : Option Str :=
  (st.sell_transactions signature).map (·.data)

/-- `get_account_data` (lines 313-315). -/
def get_account_data (st : TransactionCache) (pubkey : Str) : Option Str :=
  (st.account_data pubkey).map (·.data)

/-- `get_latest_account_data` (lines 293-295). -/
def get_latest_account_data (st : TransactionCache) (mint : Str) : Option Str :=
  st.latest_account_data mint

/-- `get_latest_reserves` (lines 298-300). -/
def get_latest_reserves (st : TransactionCache) (mint : Str) : Option (Nat × Nat) :=
  st.latest_reserves mint

/-- `extract_reserves_from_account_data` (lines 1734-1760): requires the text
to mention `BondingCurve`, locates the first lines whose trimmed text contains
the two reserve labels, takes the text after the last colon of each, trims it
and parses both as `u64`. -/
def extract_reserves_from_account_data (s : Str) : Option (Nat × Nat) :=
  if hasSub (str "BondingCurve") s then
    match (rustLines s).find? (fun l => hasSub (str "VIRTUAL TOKEN RESERVES") (trimL l)),
          (rustLines s).find? (fun l => hasSub (str "VIRTUAL SOL RESERVES") (trimL l)) with
    | some vtLine, some vsLine => do
      let a ← (splitOnL ':' (trimL vtLine)).getLast?
      let b ← (splitOnL ':' (trimL vsLine)).getLast?
      let vt ← parseU64 (trimL a)
      let vs ← parseU64 (trimL b)
      pure (vt, vs)
    | _, _ => none
  else none

/-- The enhancement that `cache_buy_transaction` (lines 81-134) applies to the
stored payload: with a mint it appends the mint address, then (if the curve
address derives) the curve account, its cached data, the extracted reserves
with rendered price, and the creator vault recovered from the original text. -/
def buyEnhance (ops : OpaqueOps) (st : TransactionCache) (data : Str)
    (mint : Option Str) : Str :=
  match mint with
  | none => data
  | some m =>
    let d1 := data ++ str "\n\nMINT地址:\n" ++ m
    match ops.curveOf m with
    | none => d1
    | some curve =>
      let d2 := d1 ++ str "\n\n关联曲线账户:\n" ++ curve
      match get_account_data st curve with
      | none => d2
      | some curveData =>
        let d3 := d2 ++ str "\n\n绑定曲线账户数据:\n" ++ curveData
        let d4 :=
          match extract_reserves_from_account_data curveData with
          | some (vt, vs) =>
            d3 ++ str "\n\n虚拟储备信息:\n虚拟代币储备: " ++ natDigits vt ++
              str "\n虚拟SOL储备: " ++ natDigits vs ++
              str "\n\n价格信息:\n当前价格: " ++ ops.priceStr vt vs ++ str " SOL"
          | none => d3
        match ops.extractVaultLog data with
        | some cv => d4 ++ str "\n\n创作者金库地址:\n" ++ cv
        | none => d4

/-- `cache_buy_transaction` (lines 81-156): stores the enhanced payload under
the signature at the capture instant `now` (the Redis write-through has no
in-process effect). -/
def cache_buy_transaction (ops : OpaqueOps) (st : TransactionCache)
    (signature data : Str) (mint : Option Str) (now : Nat) : TransactionCache :=
  { st with buy_transactions := upd st.buy_transactions signature ⟨buyEnhance ops st data mint, now⟩ }

/-- The first enhancement step of `cache_sell_transaction` (lines 160-180):
append the creator vault found in the payload text, or, failing that, the
address scraped from an `associatedTokenProgram` line of the payload. -/
def sellE1 (ops : OpaqueOps) (data : Str) : Str :=
  match ops.extractVaultLog data with
  | some cv => data ++ str "\n\n创作者金库地址:\n" ++ cv
  | none =>
    if hasSub (str "associatedTokenProgram") data ||
        hasSub (str "associatedtokenprogram") data ||
        hasSub (str "associated_token_program") data then
      match findSubIdx (str "associatedTokenProgram") data with
      | some i =>
        let tail := data.drop i
        match List.findIdx? (fun c => c = '\n') tail with
        | some e =>
          let line := tail.take e
          match rfindIdx ':' line with
          | some j => data ++ str "\n\n创作者金库地址:\n" ++ trimL (line.drop (j + 1))
          | none => data
        | none => data
      | none => data
    else data

/-- The full payload stored by `cache_sell_transaction` (lines 159-233): the
vault-augmented text, then (for a non-empty mint whose curve address derives)
the curve account, its cached data, and the extracted reserves with rendered
price. -/
def sellStored (ops : OpaqueOps) (st : TransactionCache) (data : Str)
    (mint : Option Str) : Str :=
  let e1 := sellE1 ops data
  match mint with
  | some m =>
    if m ≠ [] then
      match ops.curveOf m with
      | none => e1
      | some curve =>
        let e2 := e1 ++ str "\n\n关联曲线账户:\n" ++ curve
        match get_account_data st curve with
        | none => e2
        | some rd =>
          let e3 := e2 ++ str "\n\n绑定曲线账户数据:\n" ++ rd
          match extract_reserves_from_account_data rd with
          | some (vt, vs) =>
            e3 ++ str "\n\n虚拟储备信息:\n虚拟代币储备: " ++ natDigits vt ++
              str "\n虚拟SOL储备: " ++ natDigits vs ++
              str "\n\n价格信息:\n当前价格: " ++ ops.priceStr vt vs ++ str " SOL"
          | none => e3
    else e1
  | none => e1

/-- `cache_sell_transaction` (lines 159-248): stores the enhanced payload
under the signature; for a non-empty mint it also overwrites the
latest-account-data index with the vault-augmented text (line 192) and, when
reserves were extracted from the cached curve data, the latest-reserves index
(line 211). -/
def cache_sell_transaction (ops : OpaqueOps) (st : TransactionCache)
    (signature data : Str) (mint : Option Str) (now : Nat) : TransactionCache :=
  let e1 := sellE1 ops data
  let latestAcc :=
    match mint with
    | some m =>
      if m ≠ [] then upd st.latest_account_data m e1 else st.latest_account_data
    | none => st.latest_account_data
  let latestRes :=
    match mint with
    | some m =>
      if m ≠ [] then
        match ops.curveOf m with
        | some curve =>
          match get_account_data st curve with
          | some rd =>
            match extract_reserves_from_account_data rd with
            | some r => upd st.latest_reserves m r
            | none => st.latest_reserves
          | none => st.latest_reserves
        | none => st.latest_reserves
      else st.latest_reserves
    | none => st.latest_reserves
  { st with
    sell_transactions := upd st.sell_transactions signature ⟨sellStored ops st data mint, now⟩
    latest_account_data := latestAcc
    latest_reserves := latestRes }

/-- `cache_account_data` (lines 251-290): stores the payload verbatim under
the pubkey; when a mint address is recoverable from the payload it also
overwrites the latest-account-data index and, if reserves parse, the
latest-reserves index. -/
def cache_account_data (ops : OpaqueOps) (st : TransactionCache)
    (pubkey data : Str) (now : Nat) : TransactionCache :=
  let st1 := { st with account_data := upd st.account_data pubkey ⟨data, now⟩ }
  match ops.mintFromAccount data with
  | none => st1
  | some m =>
    let st2 := { st1 with latest_account_data := upd st1.latest_account_data m data }
    match extract_reserves_from_account_data data with
    | some r => { st2 with latest_reserves := upd st2.latest_reserves m r }
    | none => st2

/-- The per-map sweep of `cleanup` (lines 318-361): an entry is dropped
exactly when its age (`duration_since`, which keeps entries timestamped in
the future) strictly exceeds `max_age`. -/
def retainLive (now max_age : Nat) (m : Str → Option CacheItem) : Str → Option CacheItem :=
  fun k =>
    match m k with
    | some item => if now - item.timestamp > max_age then none else some item
    | none => none

/-- `cleanup` (lines 318-361): sweeps the three timestamped key spaces and
touches nothing else. -/
def cleanup (now max_age : Nat) (st : TransactionCache) : TransactionCache :=
  { st with
    buy_transactions := retainLive now max_age st.buy_transactions
    sell_transactions := retainLive now max_age st.sell_transactions
    account_data := retainLive now max_age st.account_data }

/-! ## Stream-router transaction handling (src/main.rs lines 867-1434)

The per-instruction processing of a decoded buy/sell instruction of the
watched program, as a pure function of the event data, the feature toggles
and the watch-list match flag. -/

/-- The feature toggles consulted on this path (lines 375-387). -/
structure FeaturesM where
  log_to_file : Bool
  cpi_log_json : Bool
  cpi_log_json_dir : Str
deriving DecidableEq, Repr

/-- Mint extraction from the mapped accounts (lines 1045-1050). -/
def mintFromAccounts (accounts : List AccJ) : Str :=
  match accounts.find? (fun a => a.name = str "mint") with
  | some a => a.pubkey
  | none => str "未知"

/-- Signer extraction from the mapped accounts (lines 1053-1058). -/
def signerFromAccounts (accounts : List AccJ) : Str :=
  match accounts.find? (fun a => a.name = str "user" && a.is_signer) with
  | some a => a.pubkey
  | none => str "未知"

/-- The human-readable log message for a buy/sell instruction (lines
1063-1071 and 1181-1189); the `f64` SOL rendering comes from `ops`. -/
def pumpLogMessage (ops : OpaqueOps) (ix : PumpIx)
    (mint signature signer time : Str) : Str :=
  match ix with
  | .buy amount max_sol_cost =>
    str "TYPE: Buy\nMINT: " ++ mint ++ str "\nTOKEN AMOUNT: " ++ natDigits amount ++
      str "\nSOL COST: " ++ ops.solStr max_sol_cost ++ str " SOL\nTIME: " ++ time ++
      str "\nSIGNATURE: " ++ signature ++ str "\n签名者地址: " ++ signer
  | .sell amount min_sol_output =>
    str "TYPE: Sell\nMINT: " ++ mint ++ str "\nTOKEN AMOUNT: " ++ natDigits amount ++
      str "\nMIN SOL OUTPUT: " ++ ops.solStr min_sol_output ++ str " SOL\nTIME: " ++ time ++
      str "\nSIGNATURE: " ++ signature ++ str "\n签名者地址: " ++ signer

/-- The observable outcome of processing one decoded buy/sell instruction:
the updated cache, the structured enrichment record, the optionally persisted
structured record, the console line with its level (`consoleInfo = true`
means normal visibility, `false` means debug), and the optional plain-text
log-file line. -/
structure ProcessOut where
  cacheAfter : TransactionCache
  raw : RawCpiLog
  savedJson : Option RawCpiLog
  consoleInfo : Bool
  consoleMsg : Str
  fileLine : Option Str

/-- Processing of one decoded buy/sell instruction of the watched program
(lines 1061-1302): build the log message, correlate reserves through the
cache, assemble the structured record, augment and cache the payload, persist
the structured record when enabled, then emit the console line at
normal/debug level and, for a watch-list match with file logging enabled,
append the line to the plain-text log file (lines 1150-1178 and 1274-1302).
The unused locals `price`/`creator`/`fee_basis_points` of the source are dead
stores and are not part of the observable outcome. -/
def processPumpInstruction (ops : OpaqueOps) (features : FeaturesM)
    (st : TransactionCache) (ix : PumpIx) (accounts : List AccJ)
    (signature formatted_time : Str) (now : Nat) (is_monitored : Bool) :
    ProcessOut :=
  let mint := mintFromAccounts accounts
  let signer := signerFromAccounts accounts
  let logMsg := pumpLogMessage ops ix mint signature signer formatted_time
  let curve := ops.curveOf mint
  let reserves :=
    match curve with
    | some c =>
      match get_account_data st c with
      | some cd => extract_reserves_from_account_data cd
      | none => none
    | none => none
  let raw := extract_raw_cpi_log_data ops ix signature accounts mint signer
    formatted_time curve (reserves.map (·.1)) (reserves.map (·.2)) now
  let enhanced :=
    match raw.creator_vault with
    | some cv => logMsg ++ str "\n\n创作者金库地址:\n" ++ cv
    | none =>
      match ix with
      | .sell _ _ =>
        match ops.extractVaultLog logMsg with
        | some cv => logMsg ++ str "\n\n创作者金库地址:\n" ++ cv
        | none => logMsg
      | .buy _ _ => logMsg
  let cacheAfter :=
    match ix with
    | .buy _ _ => cache_buy_transaction ops st signature enhanced (some mint) now
    | .sell _ _ => cache_sell_transaction ops st signature enhanced (some mint) now
  { cacheAfter := cacheAfter
    raw := raw
    savedJson :=
      if features.cpi_log_json && features.cpi_log_json_dir ≠ [] then some raw else none
    consoleInfo := is_monitored
    consoleMsg := logMsg
    fileLine :=
      if is_monitored && features.log_to_file then
        some (str "[" ++ ops.nowStr ++ str "] " ++ logMsg)
      else none }

/-- The monitored-address list handed to the router (lines 444-461 build
`account_include = user addresses ++ [program id]`; lines 878-886 filter the
program id back out). -/
def monitoredAddressList (user_addresses : List Str) (program_id : Str) : List Str :=
  (user_addresses ++ [program_id]).filter (fun a => a ≠ program_id)

/-- The watch-list match computation (lines 917-932): some transaction
account key is in the filtered monitored list and is not the program id. -/
def isMonitoredInvolved (account_keys monitored : List Str) (program_id : Str) : Bool :=
  account_keys.any (fun k => monitored.contains k && k ≠ program_id)

/-! ## Structured-log retention (src/main.rs lines 587-707)

The directory is a list of files with modification times; an append writes
the new file with the current time, then, when a positive maximum is
exceeded, removes the oldest files (by modification time, ties resolved by
the stable sort in favour of earlier directory order) until the count is back
at the limit. -/

/-- One file of the structured-log directory. -/
structure LogFile where
  name : Str
  mtime : Nat
deriving DecidableEq, Repr

/-- Remove the first file attaining the minimal modification time (the head
of the stable ascending sort of lines 626-630). -/
def removeFirstMin : List LogFile → List LogFile
  | [] => []
  | f :: rest =>
    if rest.all (fun g => f.mtime ≤ g.mtime) then rest
    else f :: removeFirstMin rest

/-- Remove the `k` oldest files (lines 632-641). -/
def removeOldest : Nat → List LogFile → List LogFile
  | 0, l => l
  | k + 1, l => removeOldest k (removeFirstMin l)

/-- `save_raw_cpi_log_to_json` / `save_cpi_log_to_json` (lines 587-707)
directory effect: append the new file at the current instant, then prune the
oldest files while the count exceeds a positive maximum. -/
def save_raw_cpi_log_to_json (dir : List LogFile) (newName : Str) (now : Nat)
    (max_files : Nat) : List LogFile :=
  let d := dir ++ [⟨newName, now⟩]
  if 0 < max_files ∧ max_files < d.length then removeOldest (d.length - max_files) d
  else d

/-! ## Bonding-curve account-info formatting (src/main.rs lines 1493-1534)

The account handler renders the decoded snapshot into the indented
human-readable block (44 spaces of literal indentation per line in the
source), then appends the creator and time lines. -/

/-- The 44 spaces of literal indentation inside the format string at lines
1493-1502. -/
def INDENT44 : Str := List.replicate 44 ' '

/-- The formatted `BondingCurve` account-info text (lines 1493-1534,
including the appended `CREATOR:` and `TIME:` lines). -/
def bondingCurveAccountInfo (pubkey_str : Str) (vt vs rtr rsr tts : Nat)
    (complete : Bool) (creator formatted_time : Str) : Str :=
  str "\n" ++ INDENT44 ++ str "ACCOUNT TYPE: BondingCurve\n" ++
  INDENT44 ++ str "PUBKEY: " ++ pubkey_str ++ str "\n" ++
  INDENT44 ++ str "VIRTUAL TOKEN RESERVES: " ++ natDigits vt ++ str "\n" ++
  INDENT44 ++ str "VIRTUAL SOL RESERVES: " ++ natDigits vs ++ str "\n" ++
  INDENT44 ++ str "REAL TOKEN RESERVES: " ++ natDigits rtr ++ str "\n" ++
  INDENT44 ++ str "REAL SOL RESERVES: " ++ natDigits rsr ++ str "\n" ++
  INDENT44 ++ str "TOKEN TOTAL SUPPLY: " ++ natDigits tts ++ str "\n" ++
  INDENT44 ++ str "COMPLETE: " ++ boolStr complete ++ str "\n" ++ INDENT44 ++
  str "CREATOR: " ++ creator ++ str "\n" ++
  str "TIME: " ++ formatted_time ++ str "\n"

/-! ## Spec-side and amended vault chains, and concrete witness parameters -/

/-- The vault fallback chain exactly as the specification words it: (a) a
labeled creator-vault account; (b) for sells, the associated-token-program
account; (c) a rent-labeled account differing from the rent sysvar; (d) the
fee-recipient account; stopping at the first non-empty address.  Stated for
comparison with `resolveCreatorVault`, which is translated from the source. -/
def specVaultChain (is_sell : Bool) (accounts : List AccJ) : Option Str :=
  let stageA := ((accounts.find? (fun a => cvNameB a.name)).map (·.pubkey)).bind
    (fun p => if p ≠ [] then some p else none)
  let stageB :=
    if is_sell then
      ((accounts.find? (fun a => atpNameB a.name)).map (·.pubkey)).bind
        (fun p => if p ≠ [] then some p else none)
    else none
  let stageC := ((accounts.find? (fun a => a.name = str "rent")).map (·.pubkey)).bind
    (fun p => if p ≠ SYSVAR_RENT_ADDR ∧ p ≠ [] then some p else none)
  let stageD := ((accounts.find? (fun a => feeNameB a.name)).map (·.pubkey)).bind
    (fun p => if p ≠ [] then some p else none)
  ((stageA.orElse (fun _ => stageB)).orElse (fun _ => stageC)).orElse (fun _ => stageD)

/-- The fallback chain the source actually implements: for sell instructions
the associated-token-program account first, then a labeled creator-vault
account, then a rent-labeled account that is neither the rent sysvar, empty,
nor the system program; the fee-recipient account is never used as the vault. -/
def amendedVaultChain (is_sell : Bool) (accounts : List AccJ) : Option Str :=
  let stageAtp :=
    if is_sell then (accounts.find? (fun a => atpNameB a.name)).map (·.pubkey) else none
  let stageCv := (accounts.find? (fun a => cvNameB a.name)).map (·.pubkey)
  let stageRent := ((accounts.find? (fun a => a.name = str "rent")).map (·.pubkey)).bind
    (fun p => if p ≠ SYSVAR_RENT_ADDR ∧ p ≠ [] ∧ p ≠ SYSTEM_PROGRAM_ADDR then some p else none)
  (stageAtp.orElse (fun _ => stageCv)).orElse (fun _ => stageRent)

/-- A concrete instantiation of the opaque-helper record used by witnesses
and counterexamples.  Its `curveOf`/`mintFromAccount`/`extractVaultLog`
results match the real helpers on the concrete inputs used there: the mint
strings involved are not valid base-58 32-byte addresses, so
`calculate_curve_account_from_mint` returns `None`, and the payload texts
carry no vault marker, embedded JSON or associated-token-program line, so
`extract_creator_vault_from_log` returns `None`. -/
def opsW : OpaqueOps where
  curveOf := fun _ => none
  mintFromAccount := fun _ => none
  extractVaultLog := fun _ => none
  priceStr := fun _ _ => []
  solStr := fun _ => []
  nowStr := []
  floatFee := fun _ _ => 0

/-- Concrete feature toggles with plain-text file logging enabled. -/
def featW : FeaturesM where
  log_to_file := true
  cpi_log_json := false
  cpi_log_json_dir := []

/-- A concrete cache state with one entry in every key space, used by
witnesses. -/
def stW9 : TransactionCache where
  buy_transactions := fun q => if q = str "k" then some ⟨str "d", 0⟩ else none
  sell_transactions := fun q => if q = str "k" then some ⟨str "d", 0⟩ else none
  account_data := fun q => if q = str "k" then some ⟨str "d", 0⟩ else none
  latest_account_data := fun q => if q = str "m" then some (str "d") else none
  latest_reserves := fun q => if q = str "m" then some (5, 7) else none

/-! # Theorems -/

/-- C3: the price computation returns 0 when the virtual token reserve is 0,
returns exactly 1 on the documented pair (vt = 1,000,000,
vs = 1,000,000,000), and for every non-zero vt equals `vs / vt * 0.001`, the
single 10^-3 scaling implemented by `calculate_price`. -/
theorem calculate_price_spec (vt vs : Nat) :
    calculate_price 0 vs = 0 ∧
    calculate_price 1000000 1000000000 = 1 ∧
    (vt ≠ 0 → calculate_price vt vs = (vs : ℚ) / (vt : ℚ) * (1 / 1000)) := by
  refine ⟨by simp [calculate_price], by norm_num [calculate_price], fun h => ?_⟩
  simp [calculate_price, h]

/-- Witness for C3 at vt = 2, vs = 6. -/
theorem calculate_price_spec_witness : calculate_price 2 6 = 3 / 1000 := by
  have h := (calculate_price_spec 2 6).2.2 (by decide)
  rw [h]; norm_num

/-- C5: every buffer shorter than 8 bytes makes `decode_account_data` return
the decode error whose message says the buffer is too short to contain a
valid discriminator; the decoder is a total function, so no such buffer can
panic. -/
theorem decode_short_buffer (buf : List Byte) (h : buf.length < 8) :
    decode_account_data buf = .error ⟨str "缓冲区太短，无法包含有效的鉴别器"⟩ := by
  unfold decode_account_data
  rw [if_pos h]

/-- Witness for C5 on the 3-byte buffer `[1, 2, 3]`. -/
theorem decode_short_buffer_witness :
    decode_account_data [1, 2, 3] = .error ⟨str "缓冲区太短，无法包含有效的鉴别器"⟩ :=
  decode_short_buffer [1, 2, 3] (by decide)

/-- C7: for every amount and fee-basis-points value and every behaviour of
the floating-point fallback, `calculate_creator_fee` returns 0 when either
argument is 0, returns the exact floor of `amount * fee_basis_points / 10000`
whenever the product fits in 64 bits, and on overflow returns the
floating-point fallback's value rather than failing. -/
theorem calculate_creator_fee_spec (fA : Nat → Nat → Nat) (amount fbp : Nat) :
    (amount = 0 ∨ fbp = 0 → calculate_creator_fee fA amount fbp = 0) ∧
    (amount * fbp < 2 ^ 64 →
      (calculate_creator_fee fA amount fbp : ℤ) = ⌊(amount * fbp : ℚ) / 10000⌋) ∧
    (amount ≠ 0 → fbp ≠ 0 → 2 ^ 64 ≤ amount * fbp →
      calculate_creator_fee fA amount fbp = fA amount fbp) := by
  refine ⟨fun h => by simp [calculate_creator_fee, h], fun h => ?_, fun h1 h2 h3 => ?_⟩
  · rcases Decidable.em (amount = 0 ∨ fbp = 0) with h0 | h0
    · rcases h0 with h0 | h0 <;> simp [calculate_creator_fee, h0]
    · rw [calculate_creator_fee, if_neg h0, if_pos h]
      have hd := Nat.div_add_mod (amount * fbp) 10000
      have hm : (amount * fbp) % 10000 < 10000 := Nat.mod_lt _ (by norm_num)
      rw [eq_comm, Int.floor_eq_iff]
      constructor
      · rw [le_div_iff₀ (by norm_num : (0 : ℚ) < 10000)]
        have hq : (amount * fbp / 10000) * 10000 ≤ amount * fbp := by omega
        push_cast
        exact_mod_cast hq
      · rw [div_lt_iff₀ (by norm_num : (0 : ℚ) < 10000)]
        have hq : amount * fbp < (amount * fbp / 10000 + 1) * 10000 := by omega
        push_cast
        exact_mod_cast hq
  · rw [calculate_creator_fee, if_neg (by tauto), if_neg (by omega)]

/-- Witness for C7: exact fee on a non-overflowing input, fallback value on
an overflowing one, and 0 on a zero amount, with the fallback instantiated to
a constant function to exhibit independence. -/
theorem calculate_creator_fee_spec_witness :
    calculate_creator_fee (fun _ _ => 7) 0 50 = 0 ∧
    ((calculate_creator_fee (fun _ _ => 7) 20000 50 : ℤ) =
      ⌊((20000 : Nat) : ℚ) * ((50 : Nat) : ℚ) / 10000⌋) ∧
    calculate_creator_fee (fun _ _ => 7) (2 ^ 40) (2 ^ 30) = 7 := by
  have h := calculate_creator_fee_spec (fun _ _ => 7) 20000 50
  have h0 := (calculate_creator_fee_spec (fun _ _ => 7) 0 50).1 (Or.inl rfl)
  have hov := (calculate_creator_fee_spec (fun _ _ => 7) (2 ^ 40) (2 ^ 30)).2.2
    (by decide) (by decide) (by norm_num)
  exact ⟨h0, h.2.1 (by norm_num), hov⟩

/-- C1 (amended): the vault address recorded in the enrichment output follows
this chain: for sell instructions the account bound to the
associated-token-program role is consulted first; then (for all instruction
types) an account labeled creator vault; then an account labeled rent whose
address is neither the rent-sysvar constant, empty, nor the system-program
address; the fee-recipient account is never used as the resolved vault.  In
particular, when no associated-token-program stage fires, a labeled
creator_vault account still wins over a differing rent account. -/
theorem vault_chain_amended (is_sell : Bool) (accounts : List AccJ) :
    resolveCreatorVault is_sell accounts = amendedVaultChain is_sell accounts := by
  unfold resolveCreatorVault amendedVaultChain
  rcases hA : (if is_sell then
      (accounts.find? (fun a => atpNameB a.name)).map (·.pubkey) else none) with _ | p <;>
    rcases hB : (accounts.find? (fun a => cvNameB a.name)).map (·.pubkey) with _ | q <;>
      rcases hR : accounts.find? (fun a => a.name = str "rent") with _ | r <;>
        simp [hA, hB, hR, Option.orElse]

/-- C1 counterexample: on a sell instruction carrying both a labeled
creator_vault account (address X) and an associated-token-program account
(address Y), the code records Y while the claim's chain, which tries the
creator-vault label first, yields X; and on a buy instruction whose only
relevant account is a fee_recipient (address Z), the code records no vault at
all while the claim's chain falls back to Z. -/
theorem vault_chain_claim_cex :
    (resolveCreatorVault true
        [⟨str "creator_vault", str "X", false, false⟩,
         ⟨str "associatedTokenProgram", str "Y", false, false⟩] = some (str "Y") ∧
      specVaultChain true
        [⟨str "creator_vault", str "X", false, false⟩,
         ⟨str "associatedTokenProgram", str "Y", false, false⟩] = some (str "X") ∧
      str "Y" ≠ str "X") ∧
    (resolveCreatorVault false [⟨str "fee_recipient", str "Z", false, false⟩] = none ∧
      specVaultChain false [⟨str "fee_recipient", str "Z", false, false⟩] = some (str "Z")) := by
  decide

lemma drop_head_eq_getElem (l : List α) (n : Nat) : (l.drop n).head? = l[n]? := by
  induction n generalizing l with
  | zero => cases l <;> simp
  | succ n ih => cases l with
    | nil => simp
    | cons a t => simpa using ih t

lemma deserializeBCB_isSome_iff (l : List Byte) :
    (deserializeBondingCurveBody l).isSome = true ↔ bondingCurveLayoutOk l := by
  by_cases h1 : 8 ≤ l.length
  · by_cases h2 : 16 ≤ l.length
    · by_cases h3 : 24 ≤ l.length
      · by_cases h4 : 32 ≤ l.length
        · by_cases h5 : 40 ≤ l.length
          · have e1 : 8 ≤ l.length - 8 := by omega
            have e2 : 8 ≤ l.length - 16 := by omega
            have e3 : 8 ≤ l.length - 24 := by omega
            have e4 : 8 ≤ l.length - 32 := by omega
            rcases hd : l.drop 40 with _ | ⟨b, t⟩
            · have hle : l.length ≤ 40 := by
                have := congrArg List.length hd
                simp only [List.length_drop, List.length_nil] at this
                omega
              have hno : ¬ 41 ≤ l.length := by omega
              simp [deserializeBondingCurveBody, readU64LE, readBool,
                bondingCurveLayoutOk, List.length_drop, List.drop_drop, bind,
                h1, e1, e2, e3, e4, hd, hno]
            · have hb : l[(40 : Nat)]? = some b := by
                rw [← drop_head_eq_getElem, hd]
                rfl
              have hlen : 41 ≤ l.length := by
                rcases List.getElem?_eq_some_iff.mp hb with ⟨hlt, -⟩
                omega
              by_cases hb0 : b = 0
              · simp [deserializeBondingCurveBody, readU64LE, readBool,
                  bondingCurveLayoutOk, List.length_drop, List.drop_drop, bind,
                  h1, e1, e2, e3, e4, hd, hb, hb0, hlen]
              · by_cases hb1 : b = 1 <;>
                  simp [deserializeBondingCurveBody, readU64LE, readBool,
                    bondingCurveLayoutOk, List.length_drop, List.drop_drop, bind,
                    h1, e1, e2, e3, e4, hd, hb, hb0, hb1, hlen]
          · have e1 : 8 ≤ l.length - 8 := by omega
            have e2 : 8 ≤ l.length - 16 := by omega
            have e3 : 8 ≤ l.length - 24 := by omega
            have e4 : ¬ 8 ≤ l.length - 32 := by omega
            simp [deserializeBondingCurveBody, readU64LE, readBool,
              bondingCurveLayoutOk, List.length_drop, List.drop_drop, bind,
              h1, e1, e2, e3, e4]
            intro hc
            exact absurd hc (by omega)
        · have e1 : 8 ≤ l.length - 8 := by omega
          have e2 : 8 ≤ l.length - 16 := by omega
          have e3 : ¬ 8 ≤ l.length - 24 := by omega
          simp [deserializeBondingCurveBody, readU64LE, readBool,
            bondingCurveLayoutOk, List.length_drop, List.drop_drop, bind,
            h1, e1, e2, e3]
          intro hc
          exact absurd hc (by omega)
      · have e1 : 8 ≤ l.length - 8 := by omega
        have e2 : ¬ 8 ≤ l.length - 16 := by omega
        simp [deserializeBondingCurveBody, readU64LE, readBool,
          bondingCurveLayoutOk, List.length_drop, List.drop_drop, bind, h1, e1, e2]
        intro hc
        exact absurd hc (by omega)
    · have e1 : ¬ 8 ≤ l.length - 8 := by omega
      simp [deserializeBondingCurveBody, readU64LE, readBool,
        bondingCurveLayoutOk, List.length_drop, List.drop_drop, bind, h1, e1]
      intro hc
      exact absurd hc (by omega)
  · simp [deserializeBondingCurveBody, readU64LE, readBool,
      bondingCurveLayoutOk, List.length_drop, List.drop_drop, bind, h1]
    intro hc
    exact absurd hc (by omega)

set_option maxHeartbeats 2000000 in
lemma deserializeGlobal_isSome_iff (l : List Byte) :
    (deserializeGlobalBody l).isSome = true ↔ globalLayoutOk l := by
  rcases l with _ | ⟨b, t⟩
  · simp [deserializeGlobalBody, readBool, globalLayoutOk, bind]
  · have hgd : (b :: t).getD 0 0 = b := rfl
    by_cases hb0 : b = 0
    case neg =>
      by_cases hb1 : b = 1
      case neg =>
        simp [deserializeGlobalBody, readBool, globalLayoutOk, bind, hb0, hb1, hgd]
      case pos =>
        by_cases g1 : 32 ≤ t.length
        · by_cases g2 : 64 ≤ t.length
          · by_cases g3 : 72 ≤ t.length
            · by_cases g4 : 80 ≤ t.length
              · by_cases g5 : 88 ≤ t.length
                · by_cases g6 : 96 ≤ t.length
                  · by_cases g7 : 104 ≤ t.length
                    · have f1 : 32 ≤ t.length - 32 := by omega
                      have f2 : 8 ≤ t.length - 64 := by omega
                      have f3 : 8 ≤ t.length - 72 := by omega
                      have f4 : 8 ≤ t.length - 80 := by omega
                      have f5 : 8 ≤ t.length - 88 := by omega
                      have f6 : 8 ≤ t.length - 96 := by omega
                      have hlen : 105 ≤ t.length + 1 := by omega
                      simp [deserializeGlobalBody, readBool, readPubkeyBytes, readU64LE, globalLayoutOk, bind, List.length_drop, List.drop_drop, hgd, hb1, g1, f1, f2, f3, f4, f5, f6, hlen]
                      first
                      | done
                      | omega
                      | (intro hc; exact absurd hc (by omega))
                    · have f1 : 32 ≤ t.length - 32 := by omega
                      have f2 : 8 ≤ t.length - 64 := by omega
                      have f3 : 8 ≤ t.length - 72 := by omega
                      have f4 : 8 ≤ t.length - 80 := by omega
                      have f5 : 8 ≤ t.length - 88 := by omega
                      have f6 : ¬ 8 ≤ t.length - 96 := by omega
                      simp [deserializeGlobalBody, readBool, readPubkeyBytes, readU64LE, globalLayoutOk, bind, List.length_drop, List.drop_drop, hgd, hb1, g1, f1, f2, f3, f4, f5, f6]
                      first
                      | done
                      | omega
                      | (intro hc; exact absurd hc (by omega))
                  · have f1 : 32 ≤ t.length - 32 := by omega
                    have f2 : 8 ≤ t.length - 64 := by omega
                    have f3 : 8 ≤ t.length - 72 := by omega
                    have f4 : 8 ≤ t.length - 80 := by omega
                    have f5 : ¬ 8 ≤ t.length - 88 := by omega
                    simp [deserializeGlobalBody, readBool, readPubkeyBytes, readU64LE, globalLayoutOk, bind, List.length_drop, List.drop_drop, hgd, hb1, g1, f1, f2, f3, f4, f5]
                    first
                    | done
                    | omega
                    | (intro hc; exact absurd hc (by omega))
                · have f1 : 32 ≤ t.length - 32 := by omega
                  have f2 : 8 ≤ t.length - 64 := by omega
                  have f3 : 8 ≤ t.length - 72 := by omega
                  have f4 : ¬ 8 ≤ t.length - 80 := by omega
                  simp [deserializeGlobalBody, readBool, readPubkeyBytes, readU64LE, globalLayoutOk, bind, List.length_drop, List.drop_drop, hgd, hb1, g1, f1, f2, f3, f4]
                  first
                  | done
                  | omega
                  | (intro hc; exact absurd hc (by omega))
              · have f1 : 32 ≤ t.length - 32 := by omega
                have f2 : 8 ≤ t.length - 64 := by omega
                have f3 : ¬ 8 ≤ t.length - 72 := by omega
                simp [deserializeGlobalBody, readBool, readPubkeyBytes, readU64LE, globalLayoutOk, bind, List.length_drop, List.drop_drop, hgd, hb1, g1, f1, f2, f3]
                first
                | done
                | omega
                | (intro hc; exact absurd hc (by omega))
            · have f1 : 32 ≤ t.length - 32 := by omega
              have f2 : ¬ 8 ≤ t.length - 64 := by omega
              simp [deserializeGlobalBody, readBool, readPubkeyBytes, readU64LE, globalLayoutOk, bind, List.length_drop, List.drop_drop, hgd, hb1, g1, f1, f2]
              first
              | done
              | omega
              | (intro hc; exact absurd hc (by omega))
          · have f1 : ¬ 32 ≤ t.length - 32 := by omega
            simp [deserializeGlobalBody, readBool, readPubkeyBytes, readU64LE, globalLayoutOk, bind, List.length_drop, List.drop_drop, hgd, hb1, g1, f1]
            first
            | done
            | omega
            | (intro hc; exact absurd hc (by omega))
        · simp [deserializeGlobalBody, readBool, readPubkeyBytes, readU64LE, globalLayoutOk, bind, List.length_drop, List.drop_drop, hgd, hb1, g1]
          first
          | done
          | omega
          | (intro hc; exact absurd hc (by omega))
    case pos =>
      by_cases g1 : 32 ≤ t.length
      · by_cases g2 : 64 ≤ t.length
        · by_cases g3 : 72 ≤ t.length
          · by_cases g4 : 80 ≤ t.length
            · by_cases g5 : 88 ≤ t.length
              · by_cases g6 : 96 ≤ t.length
                · by_cases g7 : 104 ≤ t.length
                  · have f1 : 32 ≤ t.length - 32 := by omega
                    have f2 : 8 ≤ t.length - 64 := by omega
                    have f3 : 8 ≤ t.length - 72 := by omega
                    have f4 : 8 ≤ t.length - 80 := by omega
                    have f5 : 8 ≤ t.length - 88 := by omega
                    have f6 : 8 ≤ t.length - 96 := by omega
                    have hlen : 105 ≤ t.length + 1 := by omega
                    simp [deserializeGlobalBody, readBool, readPubkeyBytes, readU64LE, globalLayoutOk, bind, List.length_drop, List.drop_drop, hgd, hb0, g1, f1, f2, f3, f4, f5, f6, hlen]
                    first
                    | done
                    | omega
                    | (intro hc; exact absurd hc (by omega))
                  · have f1 : 32 ≤ t.length - 32 := by omega
                    have f2 : 8 ≤ t.length - 64 := by omega
                    have f3 : 8 ≤ t.length - 72 := by omega
                    have f4 : 8 ≤ t.length - 80 := by omega
                    have f5 : 8 ≤ t.length - 88 := by omega
                    have f6 : ¬ 8 ≤ t.length - 96 := by omega
                    simp [deserializeGlobalBody, readBool, readPubkeyBytes, readU64LE, globalLayoutOk, bind, List.length_drop, List.drop_drop, hgd, hb0, g1, f1, f2, f3, f4, f5, f6]
                    first
                    | done
                    | omega
                    | (intro hc; exact absurd hc (by omega))
                · have f1 : 32 ≤ t.length - 32 := by omega
                  have f2 : 8 ≤ t.length - 64 := by omega
                  have f3 : 8 ≤ t.length - 72 := by omega
                  have f4 : 8 ≤ t.length - 80 := by omega
                  have f5 : ¬ 8 ≤ t.length - 88 := by omega
                  simp [deserializeGlobalBody, readBool, readPubkeyBytes, readU64LE, globalLayoutOk, bind, List.length_drop, List.drop_drop, hgd, hb0, g1, f1, f2, f3, f4, f5]
                  first
                  | done
                  | omega
                  | (intro hc; exact absurd hc (by omega))
              · have f1 : 32 ≤ t.length - 32 := by omega
                have f2 : 8 ≤ t.length - 64 := by omega
                have f3 : 8 ≤ t.length - 72 := by omega
                have f4 : ¬ 8 ≤ t.length - 80 := by omega
                simp [deserializeGlobalBody, readBool, readPubkeyBytes, readU64LE, globalLayoutOk, bind, List.length_drop, List.drop_drop, hgd, hb0, g1, f1, f2, f3, f4]
                first
                | done
                | omega
                | (intro hc; exact absurd hc (by omega))
            · have f1 : 32 ≤ t.length - 32 := by omega
              have f2 : 8 ≤ t.length - 64 := by omega
              have f3 : ¬ 8 ≤ t.length - 72 := by omega
              simp [deserializeGlobalBody, readBool, readPubkeyBytes, readU64LE, globalLayoutOk, bind, List.length_drop, List.drop_drop, hgd, hb0, g1, f1, f2, f3]
              first
              | done
              | omega
              | (intro hc; exact absurd hc (by omega))
          · have f1 : 32 ≤ t.length - 32 := by omega
            have f2 : ¬ 8 ≤ t.length - 64 := by omega
            simp [deserializeGlobalBody, readBool, readPubkeyBytes, readU64LE, globalLayoutOk, bind, List.length_drop, List.drop_drop, hgd, hb0, g1, f1, f2]
            first
            | done
            | omega
            | (intro hc; exact absurd hc (by omega))
        · have f1 : ¬ 32 ≤ t.length - 32 := by omega
          simp [deserializeGlobalBody, readBool, readPubkeyBytes, readU64LE, globalLayoutOk, bind, List.length_drop, List.drop_drop, hgd, hb0, g1, f1]
          first
          | done
          | omega
          | (intro hc; exact absurd hc (by omega))
      · simp [deserializeGlobalBody, readBool, readPubkeyBytes, readU64LE, globalLayoutOk, bind, List.length_drop, List.drop_drop, hgd, hb0, g1]
        first
        | done
        | omega
        | (intro hc; exact absurd hc (by omega))

/-- C6: for every buffer of length at least 8, if its first 8 bytes equal the
bonding-curve (resp. global) discriminator, decoding succeeds exactly when the
remaining bytes satisfy that type's fixed field layout, and on failure the
error is the deserialization message naming that account type; if the first 8
bytes match neither discriminator, decoding fails with the
no-matching-discriminator message (an ordinary error value, not a panic). -/
theorem decode_dispatch_spec (buf : List Byte) (h8 : 8 ≤ buf.length) :
    (buf.take 8 = BONDING_CURVE_ACCOUNT_DISCM →
      ((∃ a, decode_account_data buf = .ok a) ↔ bondingCurveLayoutOk (buf.drop 8)) ∧
      (¬ bondingCurveLayoutOk (buf.drop 8) →
        decode_account_data buf =
          .error ⟨str "无法反序列化BondingCurveAccount: " ++ str "io error"⟩)) ∧
    (buf.take 8 = GLOBAL_ACCOUNT_DISCM →
      ((∃ a, decode_account_data buf = .ok a) ↔ globalLayoutOk (buf.drop 8)) ∧
      (¬ globalLayoutOk (buf.drop 8) →
        decode_account_data buf =
          .error ⟨str "无法反序列化GlobalAccount: " ++ str "io error"⟩)) ∧
    (buf.take 8 ≠ BONDING_CURVE_ACCOUNT_DISCM → buf.take 8 ≠ GLOBAL_ACCOUNT_DISCM →
      decode_account_data buf = .error ⟨str "未找到账户的鉴别器"⟩) := by
  have hnlt : ¬ buf.length < 8 := by omega
  refine ⟨fun hbc => ?_, fun hg => ?_, fun hn1 hn2 => ?_⟩
  · have hbody := deserializeBCB_isSome_iff (buf.drop 8)
    constructor
    · rw [← hbody]
      simp only [decode_account_data, hnlt, if_false, hbc, if_true]
      rcases hres : deserializeBondingCurveBody (buf.drop 8) with _ | a <;> simp [hres]
    · intro hno
      rw [← hbody] at hno
      simp only [decode_account_data, hnlt, if_false, hbc, if_true]
      rcases hres : deserializeBondingCurveBody (buf.drop 8) with _ | a
      · simp
      · rw [hres] at hno
        simp at hno
  · have hbody := deserializeGlobal_isSome_iff (buf.drop 8)
    have hGB : ¬ (GLOBAL_ACCOUNT_DISCM = BONDING_CURVE_ACCOUNT_DISCM) := by decide
    constructor
    · rw [← hbody]
      simp only [decode_account_data, hnlt, if_false, hg, if_true]
      rcases hres : deserializeGlobalBody (buf.drop 8) with _ | a <;> simp [hres, hGB]
    · intro hno
      rw [← hbody] at hno
      simp only [decode_account_data, hnlt, if_false, hg, if_true]
      rcases hres : deserializeGlobalBody (buf.drop 8) with _ | a
      · simp [hGB]
      · rw [hres] at hno
        simp at hno
  · simp [decode_account_data, hnlt, hn1, hn2]

/-- Witness for C6: a bonding-curve-tagged buffer with a well-laid-out body
decodes successfully; the same tag over a malformed body (boolean byte 7)
fails with the type-naming message; an unknown discriminator fails with the
no-matching-discriminator message. -/
theorem decode_dispatch_spec_witness :
    (∃ a, decode_account_data
      (BONDING_CURVE_ACCOUNT_DISCM ++ (List.replicate 40 (0 : Byte) ++ [1])) = .ok a) ∧
    decode_account_data
      (BONDING_CURVE_ACCOUNT_DISCM ++ (List.replicate 40 (0 : Byte) ++ [7])) =
      .error ⟨str "无法反序列化BondingCurveAccount: " ++ str "io error"⟩ ∧
    decode_account_data (List.replicate 9 (0 : Byte)) = .error ⟨str "未找到账户的鉴别器"⟩ := by
  refine ⟨?_, ?_, ?_⟩
  · exact ((decode_dispatch_spec _ (by decide)).1 (by decide)).1.mpr (by decide)
  · exact ((decode_dispatch_spec _ (by decide)).1 (by decide)).2 (by decide)
  · exact (decode_dispatch_spec _ (by decide)).2.2 (by decide) (by decide)

lemma upd_preserves_some {β : Type} (m : Str → Option β) (k q : Str) (v w : β)
    (h : m q = some w) : ∃ w2, upd m k v q = some w2 := by
  unfold upd
  by_cases hq : q = k
  · exact ⟨v, by simp [hq]⟩
  · exact ⟨w, by simp [hq, h]⟩

lemma cache_account_data_account (ops : OpaqueOps) (st : TransactionCache)
    (k v : Str) (t : Nat) :
    (cache_account_data ops st k v t).account_data = upd st.account_data k ⟨v, t⟩ := by
  rcases hm : ops.mintFromAccount v with _ | m
  · simp [cache_account_data, hm]
  · rcases hr : extract_reserves_from_account_data v with _ | r <;>
      simp [cache_account_data, hm, hr]

/-- C2 (amended): an in-process put followed immediately by a get returns the
stored payload: exactly `v` for the account-data key space, and the
annotation-extended payload for the buy and sell spaces (`buyEnhance` /
`sellStored`, which equal `v` itself whenever no annotation applies — in
particular a buy put with no mint round-trips exactly); and once the entry's
age strictly exceeds the configured max age, a cleanup leaves the get absent
in all three key spaces. -/
theorem cache_roundtrip_amended (ops : OpaqueOps) (st : TransactionCache)
    (k v : Str) (mint : Option Str) (t now max_age : Nat) :
    (get_account_data (cache_account_data ops st k v t) k = some v) ∧
    (get_buy_transaction (cache_buy_transaction ops st k v mint t) k =
      some (buyEnhance ops st v mint)) ∧
    (get_buy_transaction (cache_buy_transaction ops st k v none t) k = some v) ∧
    (get_sell_transaction (cache_sell_transaction ops st k v mint t) k =
      some (sellStored ops st v mint)) ∧
    (max_age < now - t →
      get_buy_transaction (cleanup now max_age (cache_buy_transaction ops st k v mint t)) k
        = none ∧
      get_sell_transaction (cleanup now max_age (cache_sell_transaction ops st k v mint t)) k
        = none ∧
      get_account_data (cleanup now max_age (cache_account_data ops st k v t)) k = none) := by
  refine ⟨?_, ?_, ?_, ?_, fun hage => ⟨?_, ?_, ?_⟩⟩
  · rw [get_account_data, cache_account_data_account]
    simp [upd]
  · simp [get_buy_transaction, cache_buy_transaction, upd]
  · simp [get_buy_transaction, cache_buy_transaction, upd, buyEnhance]
  · simp [get_sell_transaction, cache_sell_transaction, upd]
  · simp [get_buy_transaction, cleanup, cache_buy_transaction, retainLive, upd]
    omega
  · simp [get_sell_transaction, cleanup, cache_sell_transaction, retainLive, upd]
    omega
  · rw [get_account_data, cleanup]
    simp only [retainLive, cache_account_data_account]
    simp [upd]
    omega

/-- Witness for C2's amended theorem at concrete inputs: an account-data
round trip returns the exact payload, a mintless buy round trip returns the
exact payload, and after expiry plus cleanup all three gets are absent. -/
theorem cache_roundtrip_amended_witness :
    get_account_data (cache_account_data opsW emptyCache (str "k") (str "v") 0) (str "k") =
      some (str "v") ∧
    get_buy_transaction (cache_buy_transaction opsW emptyCache (str "k") (str "v") none 0)
      (str "k") = some (str "v") ∧
    get_buy_transaction
      (cleanup 100 5 (cache_buy_transaction opsW emptyCache (str "k") (str "v") none 0))
      (str "k") = none ∧
    get_sell_transaction
      (cleanup 100 5 (cache_sell_transaction opsW emptyCache (str "k") (str "v") none 0))
      (str "k") = none ∧
    get_account_data
      (cleanup 100 5 (cache_account_data opsW emptyCache (str "k") (str "v") 0))
      (str "k") = none := by
  have h := cache_roundtrip_amended opsW emptyCache (str "k") (str "v") none 0 100 5
  have hx := h.2.2.2.2 (by decide)
  exact ⟨h.1, h.2.2.1, hx.1, hx.2.1, hx.2.2⟩

/-- C2 counterexample: the claim says a put of (k, v) followed by a get
returns exactly v for the buy key space too, but a buy put that carries a
mint stores a payload extended with the mint annotation, so the get returns
the extended text instead of v.  (On this concrete input the real
curve-address helper returns None, since "m" is not a valid base-58 32-byte
address, matching `opsW.curveOf`.) -/
theorem cache_buy_roundtrip_cex :
    get_buy_transaction
      (cache_buy_transaction opsW emptyCache (str "s") (str "v") (some (str "m")) 0)
      (str "s") ≠ some (str "v") ∧
    get_buy_transaction
      (cache_buy_transaction opsW emptyCache (str "s") (str "v") (some (str "m")) 0)
      (str "s") = some (str "v\n\nMINT地址:\nm") := by
  decide

/-- C9: `cleanup` removes from the three timestamped key spaces exactly the
entries whose age strictly exceeds the max age, keeps every younger entry
unchanged, and leaves both latest-by-mint indexes untouched; and the three
write operations never delete a latest-by-mint binding — an existing binding
is at most overwritten (`cache_buy_transaction` leaves both indexes exactly
as they were). -/
theorem cleanup_frame_spec (ops : OpaqueOps) (now max_age : Nat)
    (st : TransactionCache) (k : Str) :
    ((cleanup now max_age st).latest_account_data k = st.latest_account_data k) ∧
    ((cleanup now max_age st).latest_reserves k = st.latest_reserves k) ∧
    (∀ it, st.buy_transactions k = some it →
      (cleanup now max_age st).buy_transactions k =
        if max_age < now - it.timestamp then none else some it) ∧
    (st.buy_transactions k = none → (cleanup now max_age st).buy_transactions k = none) ∧
    (∀ it, st.sell_transactions k = some it →
      (cleanup now max_age st).sell_transactions k =
        if max_age < now - it.timestamp then none else some it) ∧
    (st.sell_transactions k = none → (cleanup now max_age st).sell_transactions k = none) ∧
    (∀ it, st.account_data k = some it →
      (cleanup now max_age st).account_data k =
        if max_age < now - it.timestamp then none else some it) ∧
    (st.account_data k = none → (cleanup now max_age st).account_data k = none) ∧
    (∀ sig data mint t,
      (cache_buy_transaction ops st sig data mint t).latest_account_data k =
        st.latest_account_data k ∧
      (cache_buy_transaction ops st sig data mint t).latest_reserves k =
        st.latest_reserves k) ∧
    (∀ sig data mint t v, st.latest_account_data k = some v →
      ∃ w, (cache_sell_transaction ops st sig data mint t).latest_account_data k = some w) ∧
    (∀ sig data mint t r, st.latest_reserves k = some r →
      ∃ r2, (cache_sell_transaction ops st sig data mint t).latest_reserves k = some r2) ∧
    (∀ pk data t v, st.latest_account_data k = some v →
      ∃ w, (cache_account_data ops st pk data t).latest_account_data k = some w) ∧
    (∀ pk data t r, st.latest_reserves k = some r →
      ∃ r2, (cache_account_data ops st pk data t).latest_reserves k = some r2) := by
  refine ⟨rfl, rfl, ?_, ?_, ?_, ?_, ?_, ?_, ?_, ?_, ?_, ?_, ?_⟩
  · intro it hit
    simp [cleanup, retainLive, hit, Nat.lt_iff_add_one_le]
  · intro hnone
    simp [cleanup, retainLive, hnone]
  · intro it hit
    simp [cleanup, retainLive, hit, Nat.lt_iff_add_one_le]
  · intro hnone
    simp [cleanup, retainLive, hnone]
  · intro it hit
    simp [cleanup, retainLive, hit, Nat.lt_iff_add_one_le]
  · intro hnone
    simp [cleanup, retainLive, hnone]
  · intro sig data mint t
    exact ⟨rfl, rfl⟩
  · intro sig data mint t v hv
    rcases mint with _ | m
    · exact ⟨v, hv⟩
    · by_cases hm : m = []
      · simp [cache_sell_transaction, hm]
        exact ⟨v, hv⟩
      · simp [cache_sell_transaction, hm]
        exact upd_preserves_some _ _ _ _ _ hv
  · intro sig data mint t r hr
    obtain ⟨ra, rb⟩ := r
    rcases mint with _ | m
    · exact ⟨(ra, rb), hr⟩
    · by_cases hm : m = []
      · simp [cache_sell_transaction, hm]
        exact ⟨ra, rb, hr⟩
      · simp only [cache_sell_transaction, hm]
        rcases hc : ops.curveOf m with _ | curve
        · simp [hm, hc]
          exact ⟨ra, rb, hr⟩
        · rcases ha : get_account_data st curve with _ | rd
          · simp [hm, hc, ha]
            exact ⟨ra, rb, hr⟩
          · rcases he : extract_reserves_from_account_data rd with _ | r2
            · simp [hm, hc, ha, he]
              exact ⟨ra, rb, hr⟩
            · simp [hm, hc, ha, he]
              obtain ⟨w2, hw⟩ := upd_preserves_some _ _ _ _ _ hr
              exact ⟨w2.1, w2.2, by simpa using hw⟩
  · intro pk data t v hv
    rcases hm : ops.mintFromAccount data with _ | m
    · simp [cache_account_data, hm]
      exact ⟨v, hv⟩
    · rcases he : extract_reserves_from_account_data data with _ | r2 <;>
        simp [cache_account_data, hm, he] <;>
        exact upd_preserves_some _ _ _ _ _ hv
  · intro pk data t r hr
    obtain ⟨ra, rb⟩ := r
    rcases hm : ops.mintFromAccount data with _ | m
    · simp [cache_account_data, hm]
      exact ⟨ra, rb, hr⟩
    · rcases he : extract_reserves_from_account_data data with _ | r2
      · simp [cache_account_data, hm, he]
        exact ⟨ra, rb, hr⟩
      · simp [cache_account_data, hm, he]
        obtain ⟨w2, hw⟩ := upd_preserves_some _ _ _ _ _ hr
        exact ⟨w2.1, w2.2, by simpa using hw⟩

/-- Witness for C9 on a concrete one-entry-per-space cache: a young entry
survives cleanup, an expired entry is removed, the latest indexes survive
cleanup, and each write operation leaves the latest bindings present. -/
theorem cleanup_frame_spec_witness :
    (cleanup 3 5 stW9).buy_transactions (str "k") = some ⟨str "d", 0⟩ ∧
    (cleanup 100 5 stW9).buy_transactions (str "k") = none ∧
    (cleanup 100 5 stW9).sell_transactions (str "k") = none ∧
    (cleanup 100 5 stW9).account_data (str "k") = none ∧
    (cleanup 100 5 stW9).latest_account_data (str "m") = some (str "d") ∧
    (cleanup 100 5 stW9).latest_reserves (str "m") = some (5, 7) ∧
    (∃ w, (cache_sell_transaction opsW stW9 (str "s") (str "x") (some (str "m2")) 1).latest_account_data
      (str "m") = some w) ∧
    (∃ r2, (cache_sell_transaction opsW stW9 (str "s") (str "x") (some (str "m2")) 1).latest_reserves
      (str "m") = some r2) ∧
    (∃ w, (cache_account_data opsW stW9 (str "p") (str "x") 1).latest_account_data
      (str "m") = some w) ∧
    (∃ r2, (cache_account_data opsW stW9 (str "p") (str "x") 1).latest_reserves
      (str "m") = some r2) := by
  have h3 := cleanup_frame_spec opsW 3 5 stW9 (str "k")
  have h100 := cleanup_frame_spec opsW 100 5 stW9 (str "k")
  have hm := cleanup_frame_spec opsW 100 5 stW9 (str "m")
  refine ⟨?_, ?_, ?_, ?_, ?_, ?_, ?_, ?_, ?_, ?_⟩
  · have := h3.2.2.1 ⟨str "d", 0⟩ (by decide)
    rw [this]
    decide
  · have := h100.2.2.1 ⟨str "d", 0⟩ (by decide)
    rw [this]
    decide
  · have := h100.2.2.2.2.1 ⟨str "d", 0⟩ (by decide)
    rw [this]
    decide
  · have := h100.2.2.2.2.2.2.1 ⟨str "d", 0⟩ (by decide)
    rw [this]
    decide
  · rw [hm.1]
    decide
  · rw [hm.2.1]
    decide
  · exact hm.2.2.2.2.2.2.2.2.2.1 (str "s") (str "x") (some (str "m2")) 1 (str "d") (by decide)
  · exact hm.2.2.2.2.2.2.2.2.2.2.1 (str "s") (str "x") (some (str "m2")) 1 (5, 7) (by decide)
  · exact hm.2.2.2.2.2.2.2.2.2.2.2.1 (str "p") (str "x") 1 (str "d") (by decide)
  · exact hm.2.2.2.2.2.2.2.2.2.2.2.2 (str "p") (str "x") 1 (5, 7) (by decide)

lemma any_pointwise (l : List Str) (f g : Str → Bool) (h : ∀ k, f k = g k) :
    l.any f = l.any g := by
  induction l with
  | nil => rfl
  | cons a t ih => simp [List.any_cons, h a, ih]

lemma contains_eq_decide_mem (k : Str) (l : List Str) :
    l.contains k = decide (k ∈ l) := by
  induction l with
  | nil => simp
  | cons a t ih =>
    by_cases hka : k = a <;> simp [List.contains_cons, ih, hka]

lemma monitored_filter_contains (users : List Str) (pid k : Str) :
    ((monitoredAddressList users pid).contains k && decide (k ≠ pid)) =
      (users.contains k && decide (k ≠ pid)) := by
  by_cases hk : k = pid
  · simp [hk]
  · have hiff : k ∈ monitoredAddressList users pid ↔ k ∈ users := by
      simp [monitoredAddressList, List.mem_filter, List.mem_append, hk]
    simp [contains_eq_decide_mem, hiff]

/-- C4 (amended): for every decoded buy/sell instruction of the watched
program, the watch-list match flag has no effect on the enrichment record,
the cache update, or the structured-JSON persistence — two runs differing
only in the flag produce identical `cacheAfter`, `raw`, `savedJson` and
console text; the flag controls the console level and, when plain-text file
logging is enabled, whether the line is appended to the log file; and the
watch-list match itself is computed with the program's own address excluded
from the monitored set. -/
theorem watchlist_noninterference (ops : OpaqueOps) (features : FeaturesM)
    (st : TransactionCache) (ix : PumpIx) (accounts : List AccJ)
    (signature formatted_time : Str) (now : Nat) (b1 b2 : Bool)
    (keys users : List Str) (pid : Str) :
    ((processPumpInstruction ops features st ix accounts signature formatted_time now b1).cacheAfter =
      (processPumpInstruction ops features st ix accounts signature formatted_time now b2).cacheAfter) ∧
    ((processPumpInstruction ops features st ix accounts signature formatted_time now b1).raw =
      (processPumpInstruction ops features st ix accounts signature formatted_time now b2).raw) ∧
    ((processPumpInstruction ops features st ix accounts signature formatted_time now b1).savedJson =
      (processPumpInstruction ops features st ix accounts signature formatted_time now b2).savedJson) ∧
    ((processPumpInstruction ops features st ix accounts signature formatted_time now b1).consoleMsg =
      (processPumpInstruction ops features st ix accounts signature formatted_time now b2).consoleMsg) ∧
    ((processPumpInstruction ops features st ix accounts signature formatted_time now b1).consoleInfo = b1) ∧
    ((processPumpInstruction ops features st ix accounts signature formatted_time now b1).fileLine =
      if b1 && features.log_to_file then
        some (str "[" ++ ops.nowStr ++ str "] " ++
          pumpLogMessage ops ix (mintFromAccounts accounts) signature
            (signerFromAccounts accounts) formatted_time)
      else none) ∧
    (isMonitoredInvolved keys (monitoredAddressList users pid) pid =
      keys.any (fun k => users.contains k && decide (k ≠ pid))) := by
  refine ⟨rfl, rfl, rfl, rfl, rfl, rfl, ?_⟩
  unfold isMonitoredInvolved
  exact any_pointwise _ _ _ (fun k => monitored_filter_contains users pid k)

/-- C4 counterexample: with plain-text file logging enabled, two runs on the
same event that differ only in the watch-list match flag also differ in
whether the log line is appended to the plain-text log file — an observable
difference beyond the claimed normal-versus-debug console visibility. -/
theorem watchlist_file_log_cex :
    (processPumpInstruction opsW featW emptyCache (.buy 1 2) [] (str "s") (str "t") 0
      true).fileLine ≠
    (processPumpInstruction opsW featW emptyCache (.buy 1 2) [] (str "s") (str "t") 0
      false).fileLine := by
  decide

lemma exists_lt_of_not_all (f : LogFile) (rest : List LogFile)
    (hall : ¬ (rest.all (fun q => f.mtime ≤ q.mtime) = true)) :
    ∃ y ∈ rest, y.mtime < f.mtime := by
  rw [List.all_eq_true] at hall
  push_neg at hall
  obtain ⟨y, hy, hnd⟩ := hall
  refine ⟨y, hy, ?_⟩
  by_cases hle : f.mtime ≤ y.mtime
  · exact absurd (by simpa using hle) hnd
  · omega

lemma removeFirstMin_length (l : List LogFile) (h : l ≠ []) :
    (removeFirstMin l).length = l.length - 1 := by
  induction l with
  | nil => cases h rfl
  | cons f rest ih =>
    simp only [removeFirstMin]
    by_cases hall : rest.all (fun g => f.mtime ≤ g.mtime)
    · simp [hall]
    · rw [if_neg hall]
      rcases rest with _ | ⟨g, rest2⟩
      · simp at hall
      · have := ih (by simp)
        simp only [List.length_cons] at this ⊢
        omega

lemma mem_removeFirstMin_of_exists_lt (l : List LogFile) (g : LogFile)
    (hg : g ∈ l) (hx : ∃ x ∈ l, x.mtime < g.mtime) : g ∈ removeFirstMin l := by
  induction l with
  | nil => cases hg
  | cons f rest ih =>
    by_cases hall : rest.all (fun q => f.mtime ≤ q.mtime)
    · rw [removeFirstMin, if_pos hall]
      rcases List.mem_cons.mp hg with hgf | hgr
      · obtain ⟨x, hxl, hxlt⟩ := hx
        have hfx : f.mtime ≤ x.mtime := by
          rcases List.mem_cons.mp hxl with hxf | hxr
          · rw [hxf]
          · exact of_decide_eq_true ((List.all_eq_true.mp hall) x hxr)
        rw [hgf] at hxlt
        omega
      · exact hgr
    · rw [removeFirstMin, if_neg hall]
      rcases List.mem_cons.mp hg with hgf | hgr
      · exact List.mem_cons.mpr (Or.inl hgf)
      · refine List.mem_cons.mpr (Or.inr (ih hgr ?_))
        obtain ⟨x, hxl, hxlt⟩ := hx
        rcases List.mem_cons.mp hxl with hxf | hxr
        · obtain ⟨y, hy, hylt⟩ := exists_lt_of_not_all f rest hall
          exact ⟨y, hy, by rw [hxf] at hxlt; omega⟩
        · exact ⟨x, hxr, hxlt⟩

lemma not_mem_removeFirstMin (l : List LogFile) (fmin : LogFile)
    (hstrict : ∀ g ∈ l, g ≠ fmin → fmin.mtime < g.mtime)
    (hpw : l.Pairwise (fun a b => a.mtime ≠ b.mtime)) :
    fmin ∉ removeFirstMin l := by
  induction l with
  | nil => simp [removeFirstMin]
  | cons f rest ih =>
    rcases List.pairwise_cons.mp hpw with ⟨hfr, hpwr⟩
    by_cases hall : rest.all (fun q => f.mtime ≤ q.mtime)
    · rw [removeFirstMin, if_pos hall]
      intro hmem
      by_cases hff : f = fmin
      · exact (hfr fmin hmem) (by rw [hff])
      · have h1 : fmin.mtime < f.mtime := hstrict f (List.mem_cons_self f rest) hff
        have h2 : f.mtime ≤ fmin.mtime :=
          of_decide_eq_true ((List.all_eq_true.mp hall) fmin hmem)
        omega
    · rw [removeFirstMin, if_neg hall]
      intro hmem
      rcases List.mem_cons.mp hmem with hmf | hmr
      · obtain ⟨y, hy, hylt⟩ := exists_lt_of_not_all f rest hall
        by_cases hyf : y = fmin
        · rw [← hmf, hyf] at hylt
          omega
        · have := hstrict y (List.mem_cons.mpr (Or.inr hy)) hyf
          rw [← hmf] at hylt
          omega
      · exact ih (fun g hg hne => hstrict g (List.mem_cons.mpr (Or.inr hg)) hne) hpwr hmr

/-- C8: with a positive max-file-count N and a directory already holding N
files (with pairwise distinct modification times, all older than the append
instant), one append runs the prune: exactly N files remain, the new file
and every old file except the unique oldest one are retained, and the oldest
file (by modification time) is deleted. -/
theorem cpi_log_retention (dir : List LogFile) (newName : Str) (now : Nat) (N : Nat)
    (hN : 0 < N) (hlen : dir.length = N)
    (hold : ∀ f ∈ dir, f.mtime < now)
    (hpw : dir.Pairwise (fun a b => a.mtime ≠ b.mtime))
    (fmin : LogFile) (hmin : fmin ∈ dir) (hle : ∀ g ∈ dir, fmin.mtime ≤ g.mtime) :
    (save_raw_cpi_log_to_json dir newName now N).length = N ∧
    (⟨newName, now⟩ : LogFile) ∈ save_raw_cpi_log_to_json dir newName now N ∧
    (∀ g ∈ dir, g ≠ fmin → g ∈ save_raw_cpi_log_to_json dir newName now N) ∧
    fmin ∉ save_raw_cpi_log_to_json dir newName now N := by
  have hdlen : (dir ++ [(⟨newName, now⟩ : LogFile)]).length = N + 1 := by
    simp [hlen]
  have hcond : 0 < N ∧ N < (dir ++ [(⟨newName, now⟩ : LogFile)]).length := by
    rw [hdlen]
    omega
  have hres : save_raw_cpi_log_to_json dir newName now N =
      removeFirstMin (dir ++ [⟨newName, now⟩]) := by
    rw [save_raw_cpi_log_to_json]
    rw [if_pos hcond, hdlen]
    rw [show N + 1 - N = 1 by omega]
    rfl
  have hne : dir ++ [(⟨newName, now⟩ : LogFile)] ≠ [] := by simp
  have hpw2 : (dir ++ [(⟨newName, now⟩ : LogFile)]).Pairwise
      (fun a b => a.mtime ≠ b.mtime) := by
    rw [List.pairwise_append]
    refine ⟨hpw, List.pairwise_singleton _ _, ?_⟩
    intro a ha b hb
    rcases List.mem_singleton.mp hb with rfl
    have := hold a ha
    show a.mtime ≠ now
    omega
  have hstrict : ∀ g ∈ dir ++ [(⟨newName, now⟩ : LogFile)], g ≠ fmin →
      fmin.mtime < g.mtime := by
    intro g hg hne2
    rcases List.mem_append.mp hg with hgd | hgn
    · have h1 := hle g hgd
      have h2 : fmin.mtime ≠ g.mtime := by
        have hsym : Symmetric (fun a b : LogFile => a.mtime ≠ b.mtime) :=
          fun a b h => Ne.symm h
        exact List.Pairwise.forall hsym hpw hmin hgd (fun hc => hne2 (by rw [hc]))
      omega
    · rcases List.mem_singleton.mp hgn with rfl
      exact hold fmin hmin
  refine ⟨?_, ?_, ?_, ?_⟩
  · rw [hres, removeFirstMin_length _ hne, hdlen]
    omega
  · rw [hres]
    refine mem_removeFirstMin_of_exists_lt _ _ (by simp) ⟨fmin, ?_, hold fmin hmin⟩
    exact List.mem_append.mpr (Or.inl hmin)
  · intro g hg hne2
    rw [hres]
    refine mem_removeFirstMin_of_exists_lt _ _ (List.mem_append.mpr (Or.inl hg)) ?_
    exact ⟨fmin, List.mem_append.mpr (Or.inl hmin), hstrict g (List.mem_append.mpr (Or.inl hg)) hne2⟩
  · rw [hres]
    exact not_mem_removeFirstMin _ _ hstrict hpw2

/-- Witness for C8: a directory of two files (mtimes 1 and 2) with max count
2; appending a third at instant 5 leaves two files: the new one and the
mtime-2 file; the mtime-1 file is deleted. -/
theorem cpi_log_retention_witness :
    (save_raw_cpi_log_to_json [⟨str "a", 1⟩, ⟨str "b", 2⟩] (str "c") 5 2).length = 2 ∧
    (⟨str "c", 5⟩ : LogFile) ∈ save_raw_cpi_log_to_json [⟨str "a", 1⟩, ⟨str "b", 2⟩] (str "c") 5 2 ∧
    (⟨str "b", 2⟩ : LogFile) ∈ save_raw_cpi_log_to_json [⟨str "a", 1⟩, ⟨str "b", 2⟩] (str "c") 5 2 ∧
    (⟨str "a", 1⟩ : LogFile) ∉ save_raw_cpi_log_to_json [⟨str "a", 1⟩, ⟨str "b", 2⟩] (str "c") 5 2 := by
  have h := cpi_log_retention [⟨str "a", 1⟩, ⟨str "b", 2⟩] (str "c") 5 2
    (by decide) (by decide) (by decide) (by decide) ⟨str "a", 1⟩ (by decide) (by decide)
  exact ⟨h.1, h.2.1, h.2.2.1 ⟨str "b", 2⟩ (by decide) (by decide), h.2.2.2⟩

lemma digitsVal_append_digit (xs : Str) (c : Char) :
    digitsVal (xs ++ [c]) = digitsVal xs * 10 + (c.toNat - 48) := by
  simp [digitsVal, List.foldl_append]

lemma digitChar_spec : ∀ d < 10, (digitChar d).isDigit = true ∧ (digitChar d).toNat - 48 = d := by
  decide

lemma natDigitsAux_zero : ∀ fuel, natDigitsAux fuel 0 = [] := by
  intro fuel
  cases fuel <;> simp [natDigitsAux]

lemma natDigitsAux_spec : ∀ fuel n, n ≤ fuel → 0 < n →
    natDigitsAux fuel n ≠ [] ∧ (∀ c ∈ natDigitsAux fuel n, c.isDigit = true) ∧
      digitsVal (natDigitsAux fuel n) = n := by
  intro fuel
  induction fuel with
  | zero => intro n hn h0; omega
  | succ f ih =>
    intro n hn h0
    have hne : n ≠ 0 := by omega
    simp only [natDigitsAux, hne, if_false]
    have hd10 : n % 10 < 10 := Nat.mod_lt _ (by norm_num)
    have hds := digitChar_spec (n % 10) hd10
    by_cases hq : n / 10 = 0
    · rw [hq, natDigitsAux_zero, List.nil_append]
      refine ⟨by simp, ?_, ?_⟩
      · intro c hc
        rw [List.mem_singleton.mp hc]
        exact hds.1
      · have hvc : digitsVal [digitChar (n % 10)] = (digitChar (n % 10)).toNat - 48 := by
          simp [digitsVal]
        rw [hvc, hds.2]
        omega
    · have hle : n / 10 ≤ f := by
        have := Nat.div_lt_self h0 (by norm_num : 1 < 10)
        omega
      obtain ⟨ha, hb, hc⟩ := ih (n / 10) hle (by omega)
      refine ⟨by simp, ?_, ?_⟩
      · intro c hcm
        rcases List.mem_append.mp hcm with h | h
        · exact hb c h
        · rw [List.mem_singleton.mp h]
          exact hds.1
      · rw [digitsVal_append_digit, hc, hds.2]
        omega

lemma natDigits_spec (n : Nat) :
    natDigits n ≠ [] ∧ (∀ c ∈ natDigits n, c.isDigit = true) ∧ digitsVal (natDigits n) = n := by
  by_cases h0 : n = 0
  · subst h0
    refine ⟨by simp [natDigits], ?_, by simp [natDigits, digitsVal]⟩
    intro c hc
    simp [natDigits] at hc
    rw [hc]
    decide
  · rw [natDigits, if_neg h0]
    exact natDigitsAux_spec n n (le_refl n) (by omega)

lemma not_ws_of_digit (c : Char) (h : c.isDigit = true) : c.isWhitespace = false := by
  rcases hw : c.isWhitespace with _ | _
  · rfl
  · exfalso
    rw [Char.isWhitespace] at hw
    simp only [Bool.or_eq_true, decide_eq_true_eq] at hw
    rcases hw with ((h1 | h1) | h1) | h1 <;> subst h1 <;> simp [Char.isDigit] at h

lemma parseU64_natDigits (n : Nat) (h : n < 2 ^ 64) : parseU64 (natDigits n) = some n := by
  obtain ⟨hne, hall, hval⟩ := natDigits_spec n
  rcases hd : natDigits n with _ | ⟨c, cs⟩
  · exact absurd hd hne
  · have hcd : c.isDigit = true := hall c (hd ▸ List.mem_cons_self c cs)
    have hcp : c ≠ '+' := by
      intro hc
      rw [hc] at hcd
      simp [Char.isDigit] at hcd
    rw [← hd]
    unfold parseU64
    have hh : (natDigits n).head? ≠ some '+' := by
      rw [hd]
      simp [hcp]
    rw [if_neg hh]
    rw [if_pos ⟨hne, by simpa [List.all_eq_true] using hall, by rw [hval]; exact h⟩, hval]

lemma startsWithL_iff (p l : Str) : startsWithL p l = true ↔ ∃ r, l = p ++ r := by
  induction p generalizing l with
  | nil => simp [startsWithL]
  | cons a p ih =>
    cases l with
    | nil => simp [startsWithL]
    | cons b t =>
      simp only [startsWithL, Bool.and_eq_true, beq_iff_eq]
      constructor
      · rintro ⟨rfl, hs⟩
        obtain ⟨r, hr⟩ := (ih t).mp hs
        exact ⟨r, by rw [List.cons_append, ← hr]⟩
      · rintro ⟨r, hr⟩
        rw [List.cons_append] at hr
        injection hr with h1 h2
        exact ⟨h1.symm, (ih t).mpr ⟨r, h2⟩⟩

lemma hasSub_iff (p l : Str) : hasSub p l = true ↔ ∃ u v, l = u ++ p ++ v := by
  induction l with
  | nil =>
    simp only [hasSub, startsWithL_iff]
    constructor
    · rintro ⟨r, hr⟩
      exact ⟨[], r, by simpa using hr⟩
    · rintro ⟨u, v, huv⟩
      obtain ⟨hup, hv⟩ := List.append_eq_nil.mp huv.symm
      obtain ⟨hu, hp⟩ := List.append_eq_nil.mp hup
      exact ⟨[], by simp [hp]⟩
  | cons c t ih =>
    simp only [hasSub, Bool.or_eq_true]
    constructor
    · rintro (hs | hh)
      · obtain ⟨r, hr⟩ := (startsWithL_iff _ _).mp hs
        exact ⟨[], r, by simpa using hr⟩
      · obtain ⟨u, v, huv⟩ := ih.mp hh
        exact ⟨c :: u, v, by simp [huv]⟩
    · rintro ⟨u, v, huv⟩
      rcases u with _ | ⟨d, u2⟩
      · exact Or.inl ((startsWithL_iff _ _).mpr ⟨v, by simpa using huv⟩)
      · refine Or.inr (ih.mpr ⟨u2, v, ?_⟩)
        have h2 : c :: t = d :: (u2 ++ p ++ v) := by simpa using huv
        exact (List.cons_eq_cons.mp h2).2

lemma hasSub_of_seg (p x y : Str) (h : hasSub p x = true)
    (hseg : ∃ u v, y = u ++ x ++ v) : hasSub p y = true := by
  obtain ⟨a, b, hx⟩ := (hasSub_iff _ _).mp h
  obtain ⟨u, v, hy⟩ := hseg
  refine (hasSub_iff _ _).mpr ⟨u ++ a, b ++ v, ?_⟩
  rw [hy, hx]
  simp [List.append_assoc]

lemma seg_trimLeft (l : Str) : ∃ u v, l = u ++ trimLeftL l ++ v :=
  ⟨l.takeWhile Char.isWhitespace, [], by
    simp [trimLeftL, List.takeWhile_append_dropWhile]⟩

lemma seg_trimRight (l : Str) : ∃ u v, l = u ++ trimRightL l ++ v := by
  refine ⟨[], (l.reverse.takeWhile Char.isWhitespace).reverse, ?_⟩
  have h := congrArg List.reverse
    (List.takeWhile_append_dropWhile (p := Char.isWhitespace) (l := l.reverse))
  simp only [List.reverse_append, List.reverse_reverse] at h
  simp [trimRightL]
  exact h.symm

lemma seg_stripCR (l : Str) : ∃ u v, l = u ++ stripCR l ++ v := by
  unfold stripCR
  by_cases hc : l.getLast? = some '\x0d'
  · rw [if_pos hc]
    have hne : l ≠ [] := by
      intro hnil
      rw [hnil] at hc
      simp at hc
    exact ⟨[], [l.getLast hne], by simp [List.dropLast_append_getLast hne]⟩
  · rw [if_neg hc]
    exact ⟨[], [], by simp⟩

lemma seg_trans (x y z : Str) (h1 : ∃ u v, y = u ++ x ++ v)
    (h2 : ∃ u v, z = u ++ y ++ v) : ∃ u v, z = u ++ x ++ v := by
  obtain ⟨a, b, hy⟩ := h1
  obtain ⟨c, d, hz⟩ := h2
  exact ⟨c ++ a, b ++ d, by rw [hz, hy]; simp [List.append_assoc]⟩

lemma hasSub_through_trim_stripCR (p l : Str)
    (h : hasSub p (trimL (stripCR l)) = true) : hasSub p l = true := by
  apply hasSub_of_seg p (trimL (stripCR l)) l h
  have hseg1 : ∃ u v, stripCR l = u ++ trimL (stripCR l) ++ v := by
    unfold trimL
    exact seg_trans _ _ _ (seg_trimRight (trimLeftL (stripCR l))) (seg_trimLeft (stripCR l))
  exact seg_trans _ _ _ hseg1 (seg_stripCR l)

lemma hasSub_append_cases (lab a b : Str) (h : hasSub lab (a ++ b) = true) :
    hasSub lab a = true ∨ hasSub lab b = true ∨
      ∃ s t, lab = s ++ t ∧ s ≠ [] ∧ t ≠ [] ∧ (∃ u, a = u ++ s) ∧ (∃ v, b = t ++ v) := by
  obtain ⟨u, v, huv⟩ := (hasSub_iff _ _).mp h
  have huv2 : a ++ b = (u ++ lab) ++ v := by
    rw [huv, List.append_assoc]
  by_cases h1 : u.length + lab.length ≤ a.length
  · left
    apply (hasSub_iff _ _).mpr
    have htk := congrArg (List.take (u ++ lab).length) huv2
    rw [List.take_left] at htk
    rw [List.take_append_eq_append_take] at htk
    have hb0 : b.take ((u ++ lab).length - a.length) = [] := by
      have : (u ++ lab).length - a.length = 0 := by
        simp only [List.length_append]
        omega
      rw [this]
      exact List.take_zero b
    rw [hb0, List.append_nil] at htk
    refine ⟨u, a.drop (u ++ lab).length, ?_⟩
    calc a = a.take (u ++ lab).length ++ a.drop (u ++ lab).length :=
        (List.take_append_drop _ _).symm
    _ = u ++ lab ++ a.drop (u ++ lab).length := by rw [htk]
  · by_cases h2 : a.length ≤ u.length
    · right; left
      apply (hasSub_iff _ _).mpr
      have hdr := congrArg (List.drop a.length) huv2
      rw [List.drop_left] at hdr
      rw [List.drop_append_eq_append_drop] at hdr
      have hul : (u ++ lab).drop a.length = u.drop a.length ++ lab := by
        rw [List.drop_append_eq_append_drop]
        have : a.length - u.length = 0 := by omega
        rw [this]
        simp
      rw [hul] at hdr
      have hv : v.drop (a.length - (u ++ lab).length) = v := by
        have : a.length - (u ++ lab).length = 0 := by
          simp only [List.length_append]
          omega
        rw [this, List.drop_zero]
      rw [hv] at hdr
      exact ⟨u.drop a.length, v, by rw [hdr]⟩
    · right; right
      have hu_lt : u.length < a.length := by omega
      have hlt : a.length - u.length < lab.length := by omega
      refine ⟨lab.take (a.length - u.length), lab.drop (a.length - u.length),
        (List.take_append_drop _ _).symm, ?_, ?_, ?_, ?_⟩
      · have : (lab.take (a.length - u.length)).length = a.length - u.length := by
          rw [List.length_take]
          omega
        intro hnil
        rw [hnil] at this
        simp at this
        omega
      · have : (lab.drop (a.length - u.length)).length = lab.length - (a.length - u.length) := by
          rw [List.length_drop]
        intro hnil
        rw [hnil] at this
        simp at this
        omega
      · refine ⟨u, ?_⟩
        have htk := congrArg (List.take a.length) huv2
        rw [List.take_left] at htk
        rw [List.take_append_eq_append_take] at htk
        have hv0 : v.take (a.length - (u ++ lab).length) = [] := by
          have : a.length - (u ++ lab).length = 0 := by
            simp only [List.length_append]
            omega
          rw [this]
          exact List.take_zero v
        rw [hv0, List.append_nil] at htk
        rw [List.take_append_eq_append_take] at htk
        have hu' : u.take a.length = u := List.take_of_length_le (by omega)
        rw [hu'] at htk
        exact htk
      · refine ⟨v, ?_⟩
        have hdr := congrArg (List.drop a.length) huv2
        rw [List.drop_left] at hdr
        rw [List.drop_append_eq_append_drop] at hdr
        have hv : v.drop (a.length - (u ++ lab).length) = v := by
          have : a.length - (u ++ lab).length = 0 := by
            simp only [List.length_append]
            omega
          rw [this, List.drop_zero]
        rw [hv] at hdr
        rw [List.drop_append_eq_append_drop] at hdr
        have hu0 : u.drop a.length = [] := List.drop_eq_nil_of_le (by omega)
        rw [hu0, List.nil_append] at hdr
        exact hdr

lemma splitOnL_ne_nil (sep : Char) (l : Str) : splitOnL sep l ≠ [] := by
  induction l with
  | nil => simp [splitOnL]
  | cons c t ih =>
    simp only [splitOnL]
    by_cases hc : c = sep
    · simp [hc]
    · rw [if_neg hc]
      rcases hs : splitOnL sep t with _ | ⟨h, t2⟩ <;> simp

lemma splitOnL_sep_cons (sep : Char) (l : Str) :
    splitOnL sep (sep :: l) = [] :: splitOnL sep l := by
  simp [splitOnL]

lemma splitOnL_append_nosep (sep : Char) (a l : Str) (ha : ∀ c ∈ a, c ≠ sep) :
    ∃ h t, splitOnL sep l = h :: t ∧ splitOnL sep (a ++ l) = (a ++ h) :: t := by
  induction a with
  | nil =>
    rcases hs : splitOnL sep l with _ | ⟨h, t⟩
    · exact absurd hs (splitOnL_ne_nil sep l)
    · exact ⟨h, t, rfl, by simp [hs]⟩
  | cons c a ih =>
    obtain ⟨h, t, hs, hres⟩ := ih (fun x hx => ha x (List.mem_cons.mpr (Or.inr hx)))
    refine ⟨h, t, hs, ?_⟩
    have hc : c ≠ sep := ha c (List.mem_cons_self c a)
    rw [List.cons_append, splitOnL.eq_def]
    simp only [if_neg hc]
    rw [hres]
    rfl

lemma splitOnL_line (sep : Char) (a rest : Str) (ha : ∀ c ∈ a, c ≠ sep) :
    splitOnL sep (a ++ sep :: rest) = a :: splitOnL sep rest := by
  obtain ⟨h, t, hs, hres⟩ := splitOnL_append_nosep sep a (sep :: rest) ha
  rw [splitOnL_sep_cons] at hs
  have h1 : ([] : Str) = h := (List.cons_eq_cons.mp hs).1
  have h2 : splitOnL sep rest = t := (List.cons_eq_cons.mp hs).2
  rw [hres, ← h1, ← h2, List.append_nil]

lemma splitOnL_nosep (sep : Char) (l : Str) (hl : ∀ c ∈ l, c ≠ sep) :
    splitOnL sep l = [l] := by
  obtain ⟨h, t, hs, hres⟩ := splitOnL_append_nosep sep l [] hl
  have hnil : splitOnL sep ([] : Str) = [[]] := rfl
  rw [hnil] at hs
  have h1 : ([] : Str) = h := (List.cons_eq_cons.mp hs).1
  have h2 : ([] : List Str) = t := (List.cons_eq_cons.mp hs).2
  rw [List.append_nil] at hres
  rw [hres, ← h1, ← h2, List.append_nil]

lemma dropWhile_append_ws (a b : Str) (ha : ∀ c ∈ a, c.isWhitespace = true) :
    (a ++ b).dropWhile Char.isWhitespace = b.dropWhile Char.isWhitespace := by
  induction a with
  | nil => rfl
  | cons c a ih =>
    rw [List.cons_append, List.dropWhile_cons]
    rw [if_pos (ha c (List.mem_cons_self c a))]
    exact ih (fun x hx => ha x (List.mem_cons.mpr (Or.inr hx)))

lemma trimLeftL_append (ind : Str) (c : Char) (rest : Str)
    (hind : ∀ x ∈ ind, x.isWhitespace = true) (hc : c.isWhitespace = false) :
    trimLeftL (ind ++ c :: rest) = c :: rest := by
  unfold trimLeftL
  rw [dropWhile_append_ws _ _ hind, List.dropWhile_cons, if_neg (by simp [hc])]

lemma trimRightL_eval (l : Str) (hne : l ≠ []) (hlast : (l.getLast hne).isWhitespace = false) :
    trimRightL l = l := by
  unfold trimRightL
  have hrev : l.reverse = l.getLast hne :: l.dropLast.reverse := by
    conv_lhs => rw [← List.dropLast_append_getLast hne]
    rw [List.reverse_append]
    simp
  rw [hrev, List.dropWhile_cons, if_neg (by simp [hlast]), ← hrev, List.reverse_reverse]

lemma stripCR_eval (l : Str) (hne : l ≠ []) (hlast : l.getLast hne ≠ '\x0d') :
    stripCR l = l := by
  unfold stripCR
  rw [List.getLast?_eq_getLast l hne]
  rw [if_neg (by simpa using hlast)]

lemma getLast_append_of_ne_nil (a b : Str) (hb : b ≠ []) (hab : a ++ b ≠ []) :
    (a ++ b).getLast hab = b.getLast hb := by
  have h1 := List.getLast?_eq_getLast (a ++ b) hab
  have h2 := List.getLast?_eq_getLast b hb
  have h3 : (a ++ b).getLast? = b.getLast? := List.getLast?_append_of_ne_nil a hb
  rw [h1, h2] at h3
  exact Option.some_injective _ h3

lemma no_label_over_digits (lab pre d : Str) (hlabne : lab ≠ [])
    (hpre : hasSub lab pre = false)
    (hlab : ∀ c ∈ lab, c.isDigit = false) (hd : ∀ c ∈ d, c.isDigit = true) :
    hasSub lab (pre ++ d) = false := by
  rcases hres : hasSub lab (pre ++ d) with _ | _
  · rfl
  exfalso
  rcases hasSub_append_cases lab pre d hres with h | h | ⟨s, t, hst, hsne, htne, hu, hv⟩
  · rw [h] at hpre
    cases hpre
  · obtain ⟨u, v, hd2⟩ := (hasSub_iff _ _).mp h
    rcases lab with _ | ⟨c0, lab2⟩
    · exact hlabne rfl
    · have hc0d : c0 ∈ d := by
        rw [hd2]
        simp
      have h1 := hd c0 hc0d
      have h2 := hlab c0 (List.mem_cons_self c0 lab2)
      rw [h1] at h2
      cases h2
  · obtain ⟨v2, hv2⟩ := hv
    rcases t with _ | ⟨t0, t2⟩
    · exact htne rfl
    · have ht0d : t0 ∈ d := by
        rw [hv2]
        simp
      have ht0lab : t0 ∈ lab := by
        rw [hst]
        exact List.mem_append.mpr (Or.inr (List.mem_cons_self t0 t2))
      have h1 := hd t0 ht0d
      have h2 := hlab t0 ht0lab
      rw [h1] at h2
      cases h2

lemma indent_ws : ∀ x ∈ INDENT44, x.isWhitespace = true := by
  intro x hx
  unfold INDENT44 at hx
  rw [List.eq_of_mem_replicate hx]
  decide

lemma trimL_label_digits (label : Str) (c : Char) (cs : Str) (d : Str)
    (hsplitlab : label = c :: cs) (hc : c.isWhitespace = false)
    (hd : ∀ x ∈ d, x.isDigit = true) (hdne : d ≠ []) :
    trimL (INDENT44 ++ label ++ d) = label ++ d := by
  have hassoc : INDENT44 ++ label ++ d = INDENT44 ++ (c :: (cs ++ d)) := by
    rw [hsplitlab]
    simp [List.append_assoc]
  unfold trimL
  rw [hassoc, trimLeftL_append _ _ _ indent_ws hc]
  have hback : c :: (cs ++ d) = label ++ d := by
    rw [hsplitlab]
    simp
  rw [hback]
  have hne2 : label ++ d ≠ [] := by
    simp [hdne]
  apply trimRightL_eval _ hne2
  rw [getLast_append_of_ne_nil label d hdne hne2]
  exact not_ws_of_digit _ (hd _ (List.getLast_mem hdne))

lemma digit_ne_char (c x : Char) (h : c.isDigit = true) (hx : x.isDigit = false) : c ≠ x := by
  intro hc
  rw [hc, hx] at h
  cases h

lemma rustLines_head5 (l1 l2 l3 l4 rest : Str)
    (h1 : ∀ c ∈ l1, c ≠ '\n') (h2 : ∀ c ∈ l2, c ≠ '\n')
    (h3 : ∀ c ∈ l3, c ≠ '\n') (h4 : ∀ c ∈ l4, c ≠ '\n') :
    ∃ Q2, rustLines
        ('\n' :: (l1 ++ '\n' :: (l2 ++ '\n' :: (l3 ++ '\n' :: (l4 ++ '\n' :: rest))))) =
      stripCR [] :: stripCR l1 :: stripCR l2 :: stripCR l3 :: stripCR l4 :: Q2 := by
  have hsplit : splitOnL '\n'
      ('\n' :: (l1 ++ '\n' :: (l2 ++ '\n' :: (l3 ++ '\n' :: (l4 ++ '\n' :: rest))))) =
      [] :: l1 :: l2 :: l3 :: l4 :: splitOnL '\n' rest := by
    rw [splitOnL_sep_cons, splitOnL_line _ _ _ h1, splitOnL_line _ _ _ h2,
      splitOnL_line _ _ _ h3, splitOnL_line _ _ _ h4]
  have hne : ('\n' :: (l1 ++ '\n' :: (l2 ++ '\n' :: (l3 ++ '\n' :: (l4 ++ '\n' :: rest)))))
      ≠ [] := by simp
  unfold rustLines
  rw [if_neg hne, hsplit]
  by_cases hlast :
      (([] :: l1 :: l2 :: l3 :: l4 :: splitOnL '\n' rest : List Str)).getLast? = some []
  · rw [if_pos hlast]
    refine ⟨(splitOnL '\n' rest).dropLast.map stripCR, ?_⟩
    rw [show ([] :: l1 :: l2 :: l3 :: l4 :: splitOnL '\n' rest : List Str) =
        [[], l1, l2, l3, l4] ++ splitOnL '\n' rest from rfl]
    rw [List.dropLast_append_of_ne_nil _ (splitOnL_ne_nil _ _), List.map_append]
    simp
  · rw [if_neg hlast]
    exact ⟨(splitOnL '\n' rest).map stripCR, by simp⟩

set_option maxHeartbeats 2000000 in
/-- C10: extracting the virtual reserve pair back out of the formatted
bonding-curve account-info text recovers exactly the snapshot's two reserve
values: the reserve extraction is a left inverse of the account-info
formatting.  The pubkey rendering is assumed newline-free and to not itself
contain either reserve label, which holds of every base-58 rendering (the
labels contain spaces, base-58 text does not). -/
theorem extract_reserves_roundtrip (pk creator time : Str) (vt vs rtr rsr tts : Nat)
    (complete : Bool) (hvt : vt < 2 ^ 64) (hvs : vs < 2 ^ 64) (hnl : '\n' ∉ pk)
    (hpk1 : hasSub (str "VIRTUAL TOKEN RESERVES") (INDENT44 ++ str "PUBKEY: " ++ pk) = false)
    (hpk2 : hasSub (str "VIRTUAL SOL RESERVES") (INDENT44 ++ str "PUBKEY: " ++ pk) = false) :
    extract_reserves_from_account_data
      (bondingCurveAccountInfo pk vt vs rtr rsr tts complete creator time) = some (vt, vs) := by
  obtain ⟨hdvne, hdvall, -⟩ := natDigits_spec vt
  obtain ⟨hdsne, hdsall, -⟩ := natDigits_spec vs
  have hS : bondingCurveAccountInfo pk vt vs rtr rsr tts complete creator time =
      '\n' :: ((INDENT44 ++ str "ACCOUNT TYPE: BondingCurve") ++ '\n' ::
        ((INDENT44 ++ str "PUBKEY: " ++ pk) ++ '\n' ::
          ((INDENT44 ++ str "VIRTUAL TOKEN RESERVES: " ++ natDigits vt) ++ '\n' ::
            ((INDENT44 ++ str "VIRTUAL SOL RESERVES: " ++ natDigits vs) ++ '\n' ::
              (INDENT44 ++ str "REAL TOKEN RESERVES: " ++ natDigits rtr ++ str "\n" ++
               INDENT44 ++ str "REAL SOL RESERVES: " ++ natDigits rsr ++ str "\n" ++
               INDENT44 ++ str "TOKEN TOTAL SUPPLY: " ++ natDigits tts ++ str "\n" ++
               INDENT44 ++ str "COMPLETE: " ++ boolStr complete ++ str "\n" ++ INDENT44 ++
               str "CREATOR: " ++ creator ++ str "\n" ++ str "TIME: " ++ time ++ str "\n"))))) := by
    unfold bondingCurveAccountInfo
    have e0 : str "\n" = ['\n'] := by decide
    have e1 : str "ACCOUNT TYPE: BondingCurve\n" =
        str "ACCOUNT TYPE: BondingCurve" ++ ['\n'] := by decide
    rw [e0, e1]
    simp [List.append_assoc]
  have hl1 : ∀ c ∈ INDENT44 ++ str "ACCOUNT TYPE: BondingCurve", c ≠ '\n' := by decide
  have hl2 : ∀ c ∈ INDENT44 ++ str "PUBKEY: " ++ pk, c ≠ '\n' := by
    intro c hc
    rcases List.mem_append.mp hc with h | h
    · exact (by decide : ∀ c ∈ INDENT44 ++ str "PUBKEY: ", c ≠ '\n') c h
    · intro hcn
      rw [hcn] at h
      exact hnl h
  have hl3 : ∀ c ∈ INDENT44 ++ str "VIRTUAL TOKEN RESERVES: " ++ natDigits vt, c ≠ '\n' := by
    intro c hc
    rcases List.mem_append.mp hc with h | h
    · exact (by decide : ∀ c ∈ INDENT44 ++ str "VIRTUAL TOKEN RESERVES: ", c ≠ '\n') c h
    · exact digit_ne_char c '\n' (hdvall c h) (by decide)
  have hl4 : ∀ c ∈ INDENT44 ++ str "VIRTUAL SOL RESERVES: " ++ natDigits vs, c ≠ '\n' := by
    intro c hc
    rcases List.mem_append.mp hc with h | h
    · exact (by decide : ∀ c ∈ INDENT44 ++ str "VIRTUAL SOL RESERVES: ", c ≠ '\n') c h
    · exact digit_ne_char c '\n' (hdsall c h) (by decide)
  obtain ⟨Q2, hQ2p⟩ := rustLines_head5
    (INDENT44 ++ str "ACCOUNT TYPE: BondingCurve")
    (INDENT44 ++ str "PUBKEY: " ++ pk)
    (INDENT44 ++ str "VIRTUAL TOKEN RESERVES: " ++ natDigits vt)
    (INDENT44 ++ str "VIRTUAL SOL RESERVES: " ++ natDigits vs)
    (INDENT44 ++ str "REAL TOKEN RESERVES: " ++ natDigits rtr ++ str "\n" ++
     INDENT44 ++ str "REAL SOL RESERVES: " ++ natDigits rsr ++ str "\n" ++
     INDENT44 ++ str "TOKEN TOTAL SUPPLY: " ++ natDigits tts ++ str "\n" ++
     INDENT44 ++ str "COMPLETE: " ++ boolStr complete ++ str "\n" ++ INDENT44 ++
     str "CREATOR: " ++ creator ++ str "\n" ++ str "TIME: " ++ time ++ str "\n")
    hl1 hl2 hl3 hl4
  have hQ2 : rustLines (bondingCurveAccountInfo pk vt vs rtr rsr tts complete creator time) =
      stripCR [] :: stripCR (INDENT44 ++ str "ACCOUNT TYPE: BondingCurve") ::
        stripCR (INDENT44 ++ str "PUBKEY: " ++ pk) ::
        stripCR (INDENT44 ++ str "VIRTUAL TOKEN RESERVES: " ++ natDigits vt) ::
        stripCR (INDENT44 ++ str "VIRTUAL SOL RESERVES: " ++ natDigits vs) :: Q2 := by
    rw [hS]
    exact hQ2p
  have hscr0 : stripCR ([] : Str) = [] := by decide
  have hscr1 : stripCR (INDENT44 ++ str "ACCOUNT TYPE: BondingCurve") =
      INDENT44 ++ str "ACCOUNT TYPE: BondingCurve" := by decide
  have hl3ne : INDENT44 ++ str "VIRTUAL TOKEN RESERVES: " ++ natDigits vt ≠ [] := by
    simp [hdvne]
  have hl4ne : INDENT44 ++ str "VIRTUAL SOL RESERVES: " ++ natDigits vs ≠ [] := by
    simp [hdsne]
  have hscr3 : stripCR (INDENT44 ++ str "VIRTUAL TOKEN RESERVES: " ++ natDigits vt) =
      INDENT44 ++ str "VIRTUAL TOKEN RESERVES: " ++ natDigits vt := by
    apply stripCR_eval _ hl3ne
    rw [getLast_append_of_ne_nil _ _ hdvne hl3ne]
    exact digit_ne_char _ _ (hdvall _ (List.getLast_mem hdvne)) (by decide)
  have hscr4 : stripCR (INDENT44 ++ str "VIRTUAL SOL RESERVES: " ++ natDigits vs) =
      INDENT44 ++ str "VIRTUAL SOL RESERVES: " ++ natDigits vs := by
    apply stripCR_eval _ hl4ne
    rw [getLast_append_of_ne_nil _ _ hdsne hl4ne]
    exact digit_ne_char _ _ (hdsall _ (List.getLast_mem hdsne)) (by decide)
  have htrim3 : trimL (INDENT44 ++ str "VIRTUAL TOKEN RESERVES: " ++ natDigits vt) =
      str "VIRTUAL TOKEN RESERVES: " ++ natDigits vt :=
    trimL_label_digits _ 'V' (str "IRTUAL TOKEN RESERVES: ") _ (by decide) (by decide)
      hdvall hdvne
  have htrim4 : trimL (INDENT44 ++ str "VIRTUAL SOL RESERVES: " ++ natDigits vs) =
      str "VIRTUAL SOL RESERVES: " ++ natDigits vs :=
    trimL_label_digits _ 'V' (str "IRTUAL SOL RESERVES: ") _ (by decide) (by decide)
      hdsall hdsne
  have hsub3 : hasSub (str "VIRTUAL TOKEN RESERVES")
      (trimL (stripCR (INDENT44 ++ str "VIRTUAL TOKEN RESERVES: " ++ natDigits vt))) = true := by
    rw [hscr3, htrim3]
    apply (hasSub_iff _ _).mpr
    refine ⟨[], str ": " ++ natDigits vt, ?_⟩
    rw [show str "VIRTUAL TOKEN RESERVES: " =
      str "VIRTUAL TOKEN RESERVES" ++ str ": " from by decide]
    simp [List.append_assoc]
  have hsub4 : hasSub (str "VIRTUAL SOL RESERVES")
      (trimL (stripCR (INDENT44 ++ str "VIRTUAL SOL RESERVES: " ++ natDigits vs))) = true := by
    rw [hscr4, htrim4]
    apply (hasSub_iff _ _).mpr
    refine ⟨[], str ": " ++ natDigits vs, ?_⟩
    rw [show str "VIRTUAL SOL RESERVES: " =
      str "VIRTUAL SOL RESERVES" ++ str ": " from by decide]
    simp [List.append_assoc]
  have hno0vt : hasSub (str "VIRTUAL TOKEN RESERVES") (trimL (stripCR ([] : Str))) = false := by
    decide
  have hno1vt : hasSub (str "VIRTUAL TOKEN RESERVES")
      (trimL (stripCR (INDENT44 ++ str "ACCOUNT TYPE: BondingCurve"))) = false := by
    decide
  have hno2vt : hasSub (str "VIRTUAL TOKEN RESERVES")
      (trimL (stripCR (INDENT44 ++ str "PUBKEY: " ++ pk))) = false := by
    rcases hres : hasSub (str "VIRTUAL TOKEN RESERVES")
        (trimL (stripCR (INDENT44 ++ str "PUBKEY: " ++ pk))) with _ | _
    · rfl
    · rw [hasSub_through_trim_stripCR _ _ hres] at hpk1
      cases hpk1
  have hno0vs : hasSub (str "VIRTUAL SOL RESERVES") (trimL (stripCR ([] : Str))) = false := by
    decide
  have hno1vs : hasSub (str "VIRTUAL SOL RESERVES")
      (trimL (stripCR (INDENT44 ++ str "ACCOUNT TYPE: BondingCurve"))) = false := by
    decide
  have hno2vs : hasSub (str "VIRTUAL SOL RESERVES")
      (trimL (stripCR (INDENT44 ++ str "PUBKEY: " ++ pk))) = false := by
    rcases hres : hasSub (str "VIRTUAL SOL RESERVES")
        (trimL (stripCR (INDENT44 ++ str "PUBKEY: " ++ pk))) with _ | _
    · rfl
    · rw [hasSub_through_trim_stripCR _ _ hres] at hpk2
      cases hpk2
  have hno3vs : hasSub (str "VIRTUAL SOL RESERVES")
      (trimL (stripCR (INDENT44 ++ str "VIRTUAL TOKEN RESERVES: " ++ natDigits vt))) = false := by
    rw [hscr3, htrim3]
    exact no_label_over_digits _ _ _ (by decide) (by decide) (by decide) hdvall
  have hBC : hasSub (str "BondingCurve")
      (bondingCurveAccountInfo pk vt vs rtr rsr tts complete creator time) = true := by
    apply (hasSub_iff _ _).mpr
    refine ⟨'\n' :: (INDENT44 ++ str "ACCOUNT TYPE: "), '\n' ::
      ((INDENT44 ++ str "PUBKEY: " ++ pk) ++ '\n' ::
        ((INDENT44 ++ str "VIRTUAL TOKEN RESERVES: " ++ natDigits vt) ++ '\n' ::
          ((INDENT44 ++ str "VIRTUAL SOL RESERVES: " ++ natDigits vs) ++ '\n' ::
            (INDENT44 ++ str "REAL TOKEN RESERVES: " ++ natDigits rtr ++ str "\n" ++
             INDENT44 ++ str "REAL SOL RESERVES: " ++ natDigits rsr ++ str "\n" ++
             INDENT44 ++ str "TOKEN TOTAL SUPPLY: " ++ natDigits tts ++ str "\n" ++
             INDENT44 ++ str "COMPLETE: " ++ boolStr complete ++ str "\n" ++ INDENT44 ++
             str "CREATOR: " ++ creator ++ str "\n" ++ str "TIME: " ++ time ++ str "\n")))), ?_⟩
    rw [hS]
    rw [show str "ACCOUNT TYPE: BondingCurve" =
      str "ACCOUNT TYPE: " ++ str "BondingCurve" from by decide]
    simp [List.append_assoc]
  have hfind1 : (rustLines
      (bondingCurveAccountInfo pk vt vs rtr rsr tts complete creator time)).find?
        (fun l => hasSub (str "VIRTUAL TOKEN RESERVES") (trimL l)) =
      some (INDENT44 ++ str "VIRTUAL TOKEN RESERVES: " ++ natDigits vt) := by
    rw [hQ2]
    rw [List.find?_cons_of_neg _ (by rw [hno0vt]; simp)]
    rw [List.find?_cons_of_neg _ (by rw [hno1vt]; simp)]
    rw [List.find?_cons_of_neg _ (by rw [hno2vt]; simp)]
    rw [List.find?_cons_of_pos _ (by rw [hsub3])]
    rw [hscr3]
  have hfind2 : (rustLines
      (bondingCurveAccountInfo pk vt vs rtr rsr tts complete creator time)).find?
        (fun l => hasSub (str "VIRTUAL SOL RESERVES") (trimL l)) =
      some (INDENT44 ++ str "VIRTUAL SOL RESERVES: " ++ natDigits vs) := by
    rw [hQ2]
    rw [List.find?_cons_of_neg _ (by rw [hno0vs]; simp)]
    rw [List.find?_cons_of_neg _ (by rw [hno1vs]; simp)]
    rw [List.find?_cons_of_neg _ (by rw [hno2vs]; simp)]
    rw [List.find?_cons_of_neg _ (by rw [hno3vs]; simp)]
    rw [List.find?_cons_of_pos _ (by rw [hsub4])]
    rw [hscr4]
  have hsplitc3 : splitOnL ':' (trimL (INDENT44 ++ str "VIRTUAL TOKEN RESERVES: " ++
      natDigits vt)) = [str "VIRTUAL TOKEN RESERVES", ' ' :: natDigits vt] := by
    rw [htrim3]
    rw [show str "VIRTUAL TOKEN RESERVES: " ++ natDigits vt =
      str "VIRTUAL TOKEN RESERVES" ++ ':' :: (' ' :: natDigits vt) from by
        rw [show str "VIRTUAL TOKEN RESERVES: " =
          str "VIRTUAL TOKEN RESERVES" ++ [':', ' '] from by decide]
        simp [List.append_assoc]]
    rw [splitOnL_line _ _ _ (by decide)]
    rw [splitOnL_nosep _ _ ?_]
    intro x hx
    rcases List.mem_cons.mp hx with h | h
    · rw [h]; decide
    · exact digit_ne_char x ':' (hdvall x h) (by decide)
  have hsplitc4 : splitOnL ':' (trimL (INDENT44 ++ str "VIRTUAL SOL RESERVES: " ++
      natDigits vs)) = [str "VIRTUAL SOL RESERVES", ' ' :: natDigits vs] := by
    rw [htrim4]
    rw [show str "VIRTUAL SOL RESERVES: " ++ natDigits vs =
      str "VIRTUAL SOL RESERVES" ++ ':' :: (' ' :: natDigits vs) from by
        rw [show str "VIRTUAL SOL RESERVES: " =
          str "VIRTUAL SOL RESERVES" ++ [':', ' '] from by decide]
        simp [List.append_assoc]]
    rw [splitOnL_line _ _ _ (by decide)]
    rw [splitOnL_nosep _ _ ?_]
    intro x hx
    rcases List.mem_cons.mp hx with h | h
    · rw [h]; decide
    · exact digit_ne_char x ':' (hdsall x h) (by decide)
  have htrimdv : trimL (' ' :: natDigits vt) = natDigits vt := by
    obtain ⟨d0, ds, hdd⟩ : ∃ d0 ds, natDigits vt = d0 :: ds := by
      rcases h : natDigits vt with _ | ⟨a, b⟩
      · exact absurd h hdvne
      · exact ⟨a, b, rfl⟩
    unfold trimL
    have h1 : trimLeftL (' ' :: natDigits vt) = natDigits vt := by
      rw [show (' ' :: natDigits vt) = [' '] ++ natDigits vt from rfl, hdd]
      exact trimLeftL_append [' '] d0 ds (by decide)
        (not_ws_of_digit d0 (hdvall d0 (by rw [hdd]; simp)))
    rw [h1]
    apply trimRightL_eval _ hdvne
    exact not_ws_of_digit _ (hdvall _ (List.getLast_mem hdvne))
  have htrimds : trimL (' ' :: natDigits vs) = natDigits vs := by
    obtain ⟨d0, ds, hdd⟩ : ∃ d0 ds, natDigits vs = d0 :: ds := by
      rcases h : natDigits vs with _ | ⟨a, b⟩
      · exact absurd h hdsne
      · exact ⟨a, b, rfl⟩
    unfold trimL
    have h1 : trimLeftL (' ' :: natDigits vs) = natDigits vs := by
      rw [show (' ' :: natDigits vs) = [' '] ++ natDigits vs from rfl, hdd]
      exact trimLeftL_append [' '] d0 ds (by decide)
        (not_ws_of_digit d0 (hdsall d0 (by rw [hdd]; simp)))
    rw [h1]
    apply trimRightL_eval _ hdsne
    exact not_ws_of_digit _ (hdsall _ (List.getLast_mem hdsne))
  unfold extract_reserves_from_account_data
  rw [if_pos hBC, hfind1, hfind2]
  simp only [hsplitc3, hsplitc4]
  simp only [List.getLast?_cons_cons, List.getLast?_singleton]
  simp [htrimdv, htrimds, parseU64_natDigits vt hvt, parseU64_natDigits vs hvs]

/-- Witness for C10 on a concrete snapshot: pubkey "PK", reserves 12 and 34. -/
theorem extract_reserves_roundtrip_witness :
    (12 : Nat) < 2 ^ 64 ∧ (34 : Nat) < 2 ^ 64 ∧ '\n' ∉ str "PK" ∧
    hasSub (str "VIRTUAL TOKEN RESERVES") (INDENT44 ++ str "PUBKEY: " ++ str "PK") = false ∧
    hasSub (str "VIRTUAL SOL RESERVES") (INDENT44 ++ str "PUBKEY: " ++ str "PK") = false ∧
    extract_reserves_from_account_data
      (bondingCurveAccountInfo (str "PK") 12 34 5 6 7 false (str "C") (str "T")) =
      some (12, 34) :=
  ⟨by decide, by decide, by decide, by decide, by decide,
    extract_reserves_roundtrip (str "PK") (str "C") (str "T") 12 34 5 6 7 false
      (by decide) (by decide) (by decide) (by decide) (by decide)⟩

end CpiMonitor
